import Mathlib

/-
Verification development for biotopia.py, a small artificial-life
simulator.  The Python source is shallowly embedded below: pure helper
functions become Lean functions, the `Creature` and `MultiSet` classes
become structures with their methods as functions on those structures,
and the randomized parts (Python `sample`, `randint`, `random`) become
explicit parameters (scan orders as lists, coin flips as booleans,
newborn post-processing as a function argument).  Machine integers in
the source are unbounded Python ints, so they are embedded as `ℤ`.
-/

set_option maxHeartbeats 1000000

namespace Biotopia

/-- A grid coordinate: a pair of integers, used both as an absolute world
position and as a body-relative offset. -/
abbrev Cell : Type := ℤ × ℤ

/-- `neighbours(cell)` of biotopia.py: the four orthogonal neighbours. -/
def neighbours (c : Cell) : Finset Cell :=
  {(c.1 - 1, c.2), (c.1, c.2 - 1), (c.1, c.2 + 1), (c.1 + 1, c.2)}

/-- `sign(x)` of biotopia.py. -/
def sign (x : ℤ) : ℤ := if x < 0 then -1 else if x = 0 then 0 else 1

/-! ### The `MultiSet` class

`MultiSet.items` is a Python dict from value to count.  It is embedded as
the finite set of stored keys (`domain`) together with a count function
that is meaningful on `domain`.  `items.get(value, 0)` is `MultiSet.get`. -/

/-- The `MultiSet` class of biotopia.py: a dict from coordinate to a count. -/
structure MultiSet where
  domain : Finset Cell
  count : Cell → ℤ

/-- `MultiSet()`: the empty multiset. -/
def MultiSet.empty : MultiSet := ⟨∅, fun _ => 0⟩

/-- `self.items.get(value, 0)`: the stored count, defaulting to 0. -/
def MultiSet.get (m : MultiSet) (v : Cell) : ℤ :=
  if v ∈ m.domain then m.count v else 0

/-- `MultiSet.add`: `items[value] = items.get(value, 0) + 1`. -/
def MultiSet.add (m : MultiSet) (v : Cell) : MultiSet :=
  ⟨insert v m.domain, Function.update m.count v (m.get v + 1)⟩

/-- `MultiSet.remove`: `items[value] = items.get(value, 0) - 1`, then the
entry is deleted when the stored count is exactly 0. -/
def MultiSet.remove (m : MultiSet) (v : Cell) : MultiSet :=
  if m.get v - 1 = 0 then ⟨m.domain.erase v, Function.update m.count v (m.get v - 1)⟩
  else ⟨insert v m.domain, Function.update m.count v (m.get v - 1)⟩

/-- `MultiSet.__len__`: the sum of all stored counts. -/
def MultiSet.size (m : MultiSet) : ℤ := ∑ v ∈ m.domain, m.count v

/-- All stored counts are positive (the intended representation invariant). -/
def MultiSet.Positive (m : MultiSet) : Prop := ∀ v ∈ m.domain, 0 < m.count v

/-- An `add` or `remove` call on a `MultiSet`. -/
inductive MOp where
  | madd (v : Cell)
  | mremove (v : Cell)

/-- Run a sequence of `add`/`remove` calls. -/
def applyOps (m : MultiSet) : List MOp → MultiSet
  | [] => m
  | MOp.madd v :: l => applyOps (m.add v) l
  | MOp.mremove v :: l => applyOps (m.remove v) l

/-- Every `remove` in the sequence targets a value presently contained in
the multiset (count > 0), i.e. the balanced-usage discipline. -/
def ValidOps (m : MultiSet) : List MOp → Prop
  | [] => True
  | MOp.madd v :: l => ValidOps (m.add v) l
  | MOp.mremove v :: l => 0 < m.get v ∧ ValidOps (m.remove v) l

/-- Number of `add` calls in a sequence. -/
def addsCount : List MOp → ℤ
  | [] => 0
  | MOp.madd _ :: l => addsCount l + 1
  | MOp.mremove _ :: l => addsCount l

/-- Number of `remove` calls in a sequence. -/
def removesCount : List MOp → ℤ
  | [] => 0
  | MOp.madd _ :: l => removesCount l
  | MOp.mremove _ :: l => removesCount l + 1

/-! ### The analysis of a creature structure

`Creature.analyze` traverses the cell set from the head.  On a structure
it accepts (connected and acyclic), every cell is visited exactly once,
so the movement bias it accumulates and the mouth set it collects are
the following direct functions of the cell set. -/

/-- Horizontal contribution of a movement cell `c` whose unique living
neighbour is `n` (the `if/elif` chain of `Creature.analyze`). -/
def dirH (c n : Cell) : ℤ :=
  if n.1 = c.1 - 1 then -1 else if n.1 = c.1 + 1 then 1 else 0

/-- Vertical contribution of a movement cell `c` whose unique living
neighbour is `n` (the `if/elif` chain of `Creature.analyze`). -/
def dirV (c n : Cell) : ℤ :=
  if n.1 = c.1 - 1 then 0 else if n.1 = c.1 + 1 then 0
  else if n.2 = c.2 - 1 then -1 else if n.2 = c.2 + 1 then 1 else 0

/-- The net `(horizontal, vertical)` leaf bias accumulated by
`Creature.analyze`: every cell with exactly one living neighbour
contributes the direction of that neighbour. -/
def biasOf (cells : Finset Cell) : ℤ × ℤ :=
  (∑ c ∈ cells, if (neighbours c ∩ cells).card = 1
      then ∑ n ∈ neighbours c ∩ cells, dirH c n else 0,
   ∑ c ∈ cells, if (neighbours c ∩ cells).card = 1
      then ∑ n ∈ neighbours c ∩ cells, dirV c n else 0)

/-- The mouths collected by `Creature.analyze`: empty neighbours of body
cells having at least 3 living neighbours. -/
def mouthsOf (cells : Finset Cell) : Finset Cell :=
  (cells.biUnion neighbours \ cells).filter
    (fun m => 3 ≤ (neighbours m ∩ cells).card)

/-- One period of the movement cycle built by `Creature.analyze`:
`cycle(chain([(0,0)], izip_longest(repeat(sign(h), abs(h)),
repeat(sign(v), abs(v)), fillvalue=0)))`. -/
def movementPeriod (h v : ℤ) : List (ℤ × ℤ) :=
  (0, 0) :: (List.range (max h.natAbs v.natAbs)).map
    (fun i => (if i < h.natAbs then sign h else 0, if i < v.natAbs then sign v else 0))

/-- The value yielded by the `n`-th `next()` on a freshly built movement
generator with bias `(h, v)` (itertools `cycle` = indexing mod the period). -/
def movementAt (h v : ℤ) (n : ℕ) : ℤ × ℤ :=
  (movementPeriod h v).getD (n % (movementPeriod h v).length) (0, 0)

/-! ### The `Creature` class

The infinite `movement` generator is embedded as its bias `(h, v)`
together with a cursor `mvIdx`; `analyze` resets the cursor (a fresh
generator) and recomputes bias and mouths. -/

/-- The `Creature` class of biotopia.py. -/
structure Creature where
  position : Cell
  cells : Finset Cell
  head : Cell
  energy : ℤ
  age : ℕ
  mouths : Finset Cell
  bias : ℤ × ℤ
  mvIdx : ℕ
deriving DecidableEq

/-- `Creature.analyze` (the effect of a successful run): recompute
`mouths` and `movement` from the cell set, then re-base `cells` so the
head cell lies at `(0,0)` — note the source re-bases `self.cells` but
never re-assigns `self.head`. -/
def Creature.analyze (c : Creature) : Creature :=
  { c with
    mouths := mouthsOf c.cells,
    bias := biasOf c.cells,
    mvIdx := 0,
    cells := if c.head = (0, 0) then c.cells
             else c.cells.image (fun p => (p.1 - c.head.1, p.2 - c.head.2)) }

/-- `Creature.__init__`: store the fields, set `age = 0`, and run
`analyze`. -/
def Creature.init (position : Cell) (cells : Finset Cell) (head : Cell)
    (energy : ℤ) : Creature :=
  Creature.analyze ⟨position, cells, head, energy, 0, ∅, (0, 0), 0⟩

/-- `Creature.mirror_horizontal`. -/
def Creature.mirror_horizontal (c : Creature) : Creature :=
  Creature.analyze { c with cells := c.cells.image (fun p => (-p.1, p.2)) }

/-- `Creature.mirror_vertical`. -/
def Creature.mirror_vertical (c : Creature) : Creature :=
  Creature.analyze { c with cells := c.cells.image (fun p => (p.1, -p.2)) }

/-- `Creature.rotate_right`. -/
def Creature.rotate_right (c : Creature) : Creature :=
  Creature.analyze { c with cells := c.cells.image (fun p => (p.2, -p.1)) }

/-- `Creature.rotate_left`. -/
def Creature.rotate_left (c : Creature) : Creature :=
  Creature.analyze { c with cells := c.cells.image (fun p => (-p.2, p.1)) }

/-- The attachment points accepted by `Creature.add_random_cell`: empty
neighbours of body cells with exactly one living neighbour. -/
def growthCandidates (cells : Finset Cell) : Finset Cell :=
  (cells.biUnion neighbours \ cells).filter
    (fun e => (neighbours e ∩ cells).card = 1)

/-- `Creature.add_random_cell`, with the randomized scan order of empty
neighbour candidates given as the list `ao`: the first valid attachment
point found is added (then `analyze` runs); `none` models the raised
`Exception` when the scan exhausts every candidate. -/
def Creature.add_random_cell (c : Creature) (ao : List Cell) : Option Creature :=
  match ao.find? (fun e => decide (e ∈ growthCandidates c.cells)) with
  | some e => some (Creature.analyze { c with cells := insert e c.cells })
  | none => none

/-- `Creature.remove_random_cell`, with the randomized scan order of the
cells given as the list `ro`: the first non-head cell with exactly one
living neighbour is removed (then `analyze` runs); `none` models the
`return False` (organism unmodified) when no removable cell is found. -/
def Creature.remove_random_cell (c : Creature) (ro : List Cell) : Option Creature :=
  match ro.find? (fun x =>
      decide (x ∈ c.cells ∧ x ≠ c.head ∧ (neighbours x ∩ c.cells).card = 1)) with
  | some x => some (Creature.analyze { c with cells := c.cells.erase x })
  | none => none

/-- Outcome of `Creature.mutate`: a mutated creature, or the fatal
`Exception` raised by an exhausted `add_random_cell` search. -/
inductive MutResult where
  | ok (c : Creature)
  | fatal
deriving DecidableEq

/-- An attempted `add_random_cell` as used inside `mutate`: failure to
find an attachment point is the fatal raised exception. -/
def addAttempt (c : Creature) (ao : List Cell) : MutResult :=
  match c.add_random_cell ao with
  | some c' => MutResult.ok c'
  | none => MutResult.fatal

/-- `Creature.mutate`, with the coin flip `randint(0,1) == 0` embedded as
`coin` and the two randomized scan orders as `ro`/`ao`: on `coin` do an
add, otherwise remove a cell falling back to an add when no cell is
removable. -/
def Creature.mutate (c : Creature) (coin : Bool) (ro ao : List Cell) : MutResult :=
  if coin then addAttempt c ao
  else
    match c.remove_random_cell ro with
    | some c' => MutResult.ok c'
    | none => addAttempt c ao

/-! ### Structural invariants: connectivity and acyclicity -/

/-- Reachability inside a cell set along 4-adjacency steps. -/
def Reach (s : Finset Cell) (a b : Cell) : Prop :=
  Relation.ReflTransGen (fun x y => x ∈ s ∧ y ∈ s ∧ y ∈ neighbours x) a b

/-- Total degree of the adjacency graph induced by a cell set (each
undirected edge counted twice). -/
def degSum (s : Finset Cell) : ℕ := ∑ c ∈ s, (neighbours c ∩ s).card

/-- The adjacency graph induced by `s` is a tree rooted at `h`: `h` is a
cell, every cell is reachable from `h`, and the edge count is
`|s| - 1` (connected plus that count is acyclicity). -/
def IsTree (s : Finset Cell) (h : Cell) : Prop :=
  h ∈ s ∧ (∀ c ∈ s, Reach s h c) ∧ degSum s = 2 * (s.card - 1)

/-- A valid organism: the head attribute is `(0,0)` and the cells form a
tree rooted there. -/
def ValidCreature (c : Creature) : Prop :=
  c.head = (0, 0) ∧ IsTree c.cells (0, 0)

/-- One application of a structural operation of the `Creature` class,
with its random choices quantified away. -/
inductive CStep : Creature → Creature → Prop where
  | mirrorH (c : Creature) : CStep c c.mirror_horizontal
  | mirrorV (c : Creature) : CStep c c.mirror_vertical
  | rotR (c : Creature) : CStep c c.rotate_right
  | rotL (c : Creature) : CStep c c.rotate_left
  | addc (c c' : Creature) (ao : List Cell) :
      c.add_random_cell ao = some c' → CStep c c'
  | removec (c c' : Creature) (ro : List Cell) :
      c.remove_random_cell ro = some c' → CStep c c'
  | mutc (c c' : Creature) (coin : Bool) (ro ao : List Cell) :
      c.mutate coin ro ao = MutResult.ok c' → CStep c c'

/-! ### The `Zoo` class and its `step` method

`Zoo.step` iterates over the creature set; the processing of one
creature is embedded as `stepCreature`.  Python-set iteration orders are
list parameters (`morder` for the mouth set); the random mutation and
rotation applied to a newborn are abstracted into the `births`
parameter applied to the freshly constructed offspring. -/

/-- Tick-invariant configuration of a `Zoo`. -/
structure Config where
  size : ℤ × ℤ
  offspring_energy : ℤ
  energy_loss : ℤ
  energy_gain : ℤ
  wrap_horizontal : Bool
  wrap_vertical : Bool

/-- Absolute world position of a relative offset `m` of a creature at
`pos` (`(position[0] + m[0], position[1] + m[1])`). -/
def absPos (pos m : Cell) : Cell := (pos.1 + m.1, pos.2 + m.2)

/-- State threaded through the mouth loop of `Zoo.step`. -/
structure MouthOut where
  food : MultiSet
  keys : MultiSet
  energy : ℤ
  newborns : List Creature

/-- The offspring as constructed by `Zoo.step`:
`Creature(mouth_position, copy(creature.cells), creature.head,
energy = offspring_energy)`. -/
def spawnBase (cfg : Config) (c : Creature) (mp : Cell) : Creature :=
  Creature.init mp c.cells c.head cfg.offspring_energy

/-- The body of the mouth loop of `Zoo.step` for one mouth `m`: feed if
the absolute mouth position holds food, and independently reproduce if
it holds a key (the newborn is post-processed by `births`, covering the
probabilistic mutation and the random rotation). -/
def processMouth (cfg : Config) (births : Cell → Creature → Creature)
    (c : Creature) (st : MouthOut) (m : Cell) : MouthOut :=
  let mp := absPos c.position m
  let st1 := if 0 < st.food.get mp then
      { st with food := st.food.remove mp, energy := st.energy + cfg.energy_gain }
    else st
  if 0 < st1.keys.get mp then
    { st1 with keys := st1.keys.remove mp,
               newborns := births mp (spawnBase cfg c mp) :: st1.newborns }
  else st1

/-- The whole mouth loop of `Zoo.step`, over the iteration order
`morder` of the mouth set. -/
def mouthFold (cfg : Config) (births : Cell → Creature → Creature)
    (c : Creature) (morder : List Cell) (st0 : MouthOut) : MouthOut :=
  morder.foldl (processMouth cfg births c) st0

/-- The first two lines of the creature loop of `Zoo.step`:
`creature.energy -= energy_loss; creature.age += 1`. -/
def tickStart (cfg : Config) (c : Creature) : Creature :=
  { c with energy := c.energy - cfg.energy_loss, age := c.age + 1 }

/-- `movement = next(creature.movement); position += movement`. -/
def moveStep (c : Creature) : Creature :=
  let mv := movementAt c.bias.1 c.bias.2 c.mvIdx
  { c with position := (c.position.1 + mv.1, c.position.2 + mv.2),
           mvIdx := c.mvIdx + 1 }

/-- Horizontal boundary handling of `Zoo.step`: wrap, or clamp and
mirror. -/
def boundaryH (cfg : Config) (c : Creature) : Creature :=
  if c.position.1 < 0 then
    (if cfg.wrap_horizontal then
        { c with position := (c.position.1 + cfg.size.1, c.position.2) }
     else Creature.mirror_horizontal { c with position := (0, c.position.2) })
  else if cfg.size.1 < c.position.1 then
    (if cfg.wrap_horizontal then
        { c with position := (c.position.1 - cfg.size.1, c.position.2) }
     else Creature.mirror_horizontal { c with position := (cfg.size.1, c.position.2) })
  else c

/-- Vertical boundary handling of `Zoo.step`: wrap, or clamp and
mirror. -/
def boundaryV (cfg : Config) (c : Creature) : Creature :=
  if c.position.2 < 0 then
    (if cfg.wrap_vertical then
        { c with position := (c.position.1, c.position.2 + cfg.size.2) }
     else Creature.mirror_vertical { c with position := (c.position.1, 0) })
  else if cfg.size.2 < c.position.2 then
    (if cfg.wrap_vertical then
        { c with position := (c.position.1, c.position.2 - cfg.size.2) }
     else Creature.mirror_vertical { c with position := (c.position.1, cfg.size.2) })
  else c

/-- Lexicographic order on cells, used only to enumerate a finite cell
set in some definite order (Python iterates its sets in an arbitrary
order; the deposits below commute, so any enumeration is equivalent). -/
def cellLe (a b : Cell) : Prop := a.1 < b.1 ∨ (a.1 = b.1 ∧ a.2 ≤ b.2)

instance : DecidableRel cellLe := fun a b => by
  unfold cellLe; infer_instance

instance : IsTotal Cell cellLe := ⟨by intro a b; unfold cellLe; omega⟩

instance : IsTrans Cell cellLe := ⟨by intro a b c; unfold cellLe; omega⟩

instance : IsAntisymm Cell cellLe :=
  ⟨by intro a b h1 h2; unfold cellLe at h1 h2; ext <;> omega⟩

/-- A definite enumeration of a finite cell set. -/
def cellList (s : Finset Cell) : List Cell := s.sort cellLe

/-- The death payout of `Zoo.step`: one particle per body cell at its
absolute position, a key for the head cell and food for every other
cell. -/
def depositAll (c : Creature) (food keys : MultiSet) : MultiSet × MultiSet :=
  (cellList c.cells).foldl
    (fun fk cell =>
      if cell = c.head then (fk.1, fk.2.add (absPos c.position cell))
      else (fk.1.add (absPos c.position cell), fk.2))
    (food, keys)

/-- Result of processing one creature inside `Zoo.step`: the updated
particle multisets, the creature itself if it survived, and the
newborns it spawned (all of which go into the survivor set). -/
structure StepOut where
  food : MultiSet
  keys : MultiSet
  selfOut : Option Creature
  newborns : List Creature

/-- State of the particle multisets, the creature's energy and the
newborn list right after the mouth loop of `Zoo.step` (energy loss and
ageing having been applied first). -/
def midState (cfg : Config) (births : Cell → Creature → Creature)
    (food keys : MultiSet) (c : Creature) (morder : List Cell) : MouthOut :=
  mouthFold cfg births (tickStart cfg c) morder
    ⟨food, keys, (tickStart cfg c).energy, []⟩

/-- The creature after the mouth loop, movement and boundary handling of
`Zoo.step`, just before the death check. -/
def movedCreature (cfg : Config) (births : Cell → Creature → Creature)
    (food keys : MultiSet) (c : Creature) (morder : List Cell) : Creature :=
  boundaryV cfg (boundaryH cfg (moveStep
    { tickStart cfg c with energy := (midState cfg births food keys c morder).energy }))

/-- The processing of one creature by `Zoo.step`: energy loss and
ageing, the mouth loop (feeding and reproduction), movement, boundary
handling, then the death check with its payout. -/
def stepCreature (cfg : Config) (births : Cell → Creature → Creature)
    (food keys : MultiSet) (c : Creature) (morder : List Cell) : StepOut :=
  let st := midState cfg births food keys c morder
  let c2 := movedCreature cfg births food keys c morder
  if c2.energy < 0 then
    let fk := depositAll c2 st.food st.keys
    ⟨fk.1, fk.2, none, st.newborns⟩
  else ⟨st.food, st.keys, some c2, st.newborns⟩

/-- One `Zoo.step()` call on a zoo whose live set is the single creature
`c`: the new food and keys multisets and the new live set. -/
def stepOne (cfg : Config) (births : Cell → Creature → Creature)
    (food keys : MultiSet) (c : Creature) (morder : List Cell) :
    MultiSet × MultiSet × List Creature :=
  let o := stepCreature cfg births food keys c morder
  (o.food, o.keys, o.newborns ++ o.selfOut.toList)

/-! ### Concrete example data used by witnesses and counterexamples -/

/-- A five-cell tree body (a `T` shape) whose analysis yields the single
mouth `(1, 0)`. -/
def exMouthCells : Finset Cell := {(0, 0), (0, 1), (1, 1), (2, 1), (2, 0)}

/-- A small configuration with the source defaults
(`energy_loss = 1`, `energy_gain = 10`), no wrapping. -/
def exCfg : Config := ⟨(10, 10), 7, 1, 10, false, false⟩

/-- A trivial newborn post-processing (no mutation, identity rotation),
usable wherever the `births` parameter is irrelevant. -/
def exBirths : Cell → Creature → Creature := fun _ b => b

/-- A concrete creature used to exercise `remove_random_cell`. -/
def exRemoveInput : Creature := Creature.init (1, 2) exMouthCells (0, 0) 5

/-- The result of removing the leaf `(2, 0)` from `exRemoveInput`. -/
def exRemoved : Creature :=
  Creature.analyze { exRemoveInput with cells := exRemoveInput.cells.erase (2, 0) }

/-- A configuration with a negative `offspring_energy`. -/
def exCfgNeg : Config := ⟨(10, 10), -3, 1, 10, false, false⟩

/-- A concrete parent creature at the origin with one mouth `(1, 0)`. -/
def exParent : Creature := Creature.init (0, 0) exMouthCells (0, 0) 5

/-- One key particle at `(1, 0)`. -/
def exKeys : MultiSet := MultiSet.empty.add (1, 0)

/-- Newborn post-processing that performs the random rotation (left). -/
def exBirthsRot : Cell → Creature → Creature := fun _ b => b.rotate_left

/-! ## Basic facts about the grid geometry -/

theorem mem_neighbours {a b : Cell} :
    a ∈ neighbours b ↔
      (a.1 = b.1 - 1 ∧ a.2 = b.2) ∨ (a.1 = b.1 ∧ a.2 = b.2 - 1) ∨
      (a.1 = b.1 ∧ a.2 = b.2 + 1) ∨ (a.1 = b.1 + 1 ∧ a.2 = b.2) := by
  simp [neighbours, Prod.ext_iff]

theorem neighbours_symm {a b : Cell} : a ∈ neighbours b ↔ b ∈ neighbours a := by
  simp only [mem_neighbours]; omega

theorem neighbours_irrefl (a : Cell) : a ∉ neighbours a := by
  simp only [mem_neighbours]; omega

/-! ## Facts about `MultiSet` -/

theorem MultiSet.get_eq_count {m : MultiSet} {v : Cell} (hv : v ∈ m.domain) :
    m.get v = m.count v := if_pos hv

theorem MultiSet.get_eq_zero {m : MultiSet} {v : Cell} (hv : v ∉ m.domain) :
    m.get v = 0 := if_neg hv

theorem MultiSet.get_add_self (m : MultiSet) (v : Cell) :
    (m.add v).get v = m.get v + 1 := by
  show (if v ∈ insert v m.domain then Function.update m.count v (m.get v + 1) v else 0)
      = m.get v + 1
  rw [if_pos (Finset.mem_insert_self v m.domain), Function.update_same]

theorem MultiSet.get_add_ne (m : MultiSet) {v w : Cell} (hw : w ≠ v) :
    (m.add v).get w = m.get w := by
  show (if w ∈ insert v m.domain then Function.update m.count v (m.get v + 1) w else 0)
      = m.get w
  rw [Function.update_noteq hw]
  by_cases hwd : w ∈ m.domain
  · rw [if_pos (Finset.mem_insert_of_mem hwd), MultiSet.get_eq_count hwd]
  · rw [if_neg (by simp [Finset.mem_insert, hw, hwd]), MultiSet.get_eq_zero hwd]

theorem MultiSet.get_remove_self (m : MultiSet) (v : Cell) :
    (m.remove v).get v = m.get v - 1 := by
  unfold MultiSet.remove
  by_cases h : m.get v - 1 = 0
  · rw [if_pos h]
    show (if v ∈ m.domain.erase v then Function.update m.count v (m.get v - 1) v else 0)
        = m.get v - 1
    rw [if_neg (by simp)]
    omega
  · rw [if_neg h]
    show (if v ∈ insert v m.domain then Function.update m.count v (m.get v - 1) v else 0)
        = m.get v - 1
    rw [if_pos (Finset.mem_insert_self v m.domain), Function.update_same]

theorem MultiSet.get_remove_ne (m : MultiSet) {v w : Cell} (hw : w ≠ v) :
    (m.remove v).get w = m.get w := by
  unfold MultiSet.remove
  by_cases h : m.get v - 1 = 0
  · rw [if_pos h]
    show (if w ∈ m.domain.erase v then Function.update m.count v (m.get v - 1) w else 0)
        = m.get w
    rw [Function.update_noteq hw]
    by_cases hwd : w ∈ m.domain
    · rw [if_pos (Finset.mem_erase.mpr ⟨hw, hwd⟩), MultiSet.get_eq_count hwd]
    · rw [if_neg (fun hc => hwd (Finset.mem_of_mem_erase hc)), MultiSet.get_eq_zero hwd]
  · rw [if_neg h]
    show (if w ∈ insert v m.domain then Function.update m.count v (m.get v - 1) w else 0)
        = m.get w
    rw [Function.update_noteq hw]
    by_cases hwd : w ∈ m.domain
    · rw [if_pos (Finset.mem_insert_of_mem hwd), MultiSet.get_eq_count hwd]
    · rw [if_neg (by simp [Finset.mem_insert, hw, hwd]), MultiSet.get_eq_zero hwd]

theorem sum_update_of_not_mem {s : Finset Cell} {v : Cell} (hv : v ∉ s)
    (f : Cell → ℤ) (b : ℤ) :
    ∑ x ∈ s, Function.update f v b x = ∑ x ∈ s, f x :=
  Finset.sum_congr rfl fun x hx =>
    Function.update_noteq (by rintro rfl; exact hv hx) _ _

theorem sum_update_erase (s : Finset Cell) (v : Cell) (f : Cell → ℤ) (b : ℤ) :
    ∑ x ∈ s.erase v, Function.update f v b x = ∑ x ∈ s.erase v, f x :=
  Finset.sum_congr rfl fun x hx => Function.update_noteq (Finset.ne_of_mem_erase hx) _ _

theorem MultiSet.size_add (m : MultiSet) (v : Cell) : (m.add v).size = m.size + 1 := by
  show (∑ x ∈ insert v m.domain, Function.update m.count v (m.get v + 1) x) = m.size + 1
  by_cases hv : v ∈ m.domain
  · rw [Finset.insert_eq_self.mpr hv, Finset.sum_update_of_mem hv,
      Finset.sdiff_singleton_eq_erase]
    unfold MultiSet.size
    rw [← Finset.add_sum_erase _ m.count hv, MultiSet.get_eq_count hv]
    ring
  · rw [Finset.sum_insert hv, Function.update_same, sum_update_of_not_mem hv,
      MultiSet.get_eq_zero hv]
    unfold MultiSet.size
    ring

theorem MultiSet.size_remove (m : MultiSet) (v : Cell) : (m.remove v).size = m.size - 1 := by
  unfold MultiSet.remove
  by_cases h : m.get v - 1 = 0
  · have hv : v ∈ m.domain := by
      by_contra hv
      rw [MultiSet.get_eq_zero hv] at h
      omega
    have hc : m.count v = 1 := by
      have h1 := MultiSet.get_eq_count hv
      omega
    rw [if_pos h]
    show (∑ x ∈ m.domain.erase v, Function.update m.count v (m.get v - 1) x) = m.size - 1
    rw [sum_update_erase]
    unfold MultiSet.size
    rw [← Finset.add_sum_erase _ m.count hv, hc]
    ring
  · rw [if_neg h]
    show (∑ x ∈ insert v m.domain, Function.update m.count v (m.get v - 1) x) = m.size - 1
    by_cases hv : v ∈ m.domain
    · rw [Finset.insert_eq_self.mpr hv, Finset.sum_update_of_mem hv,
        Finset.sdiff_singleton_eq_erase]
      unfold MultiSet.size
      rw [← Finset.add_sum_erase _ m.count hv, MultiSet.get_eq_count hv]
      ring
    · rw [Finset.sum_insert hv, Function.update_same, sum_update_of_not_mem hv,
        MultiSet.get_eq_zero hv]
      unfold MultiSet.size
      ring

theorem MultiSet.positive_iff_get (m : MultiSet) :
    m.Positive ↔ ∀ v ∈ m.domain, 0 < m.get v := by
  constructor
  · intro h v hv
    rw [MultiSet.get_eq_count hv]
    exact h v hv
  · intro h v hv
    have hh := h v hv
    rwa [MultiSet.get_eq_count hv] at hh

theorem MultiSet.get_nonneg {m : MultiSet} (hm : m.Positive) (v : Cell) : 0 ≤ m.get v := by
  by_cases hv : v ∈ m.domain
  · rw [MultiSet.get_eq_count hv]
    exact le_of_lt (hm v hv)
  · rw [MultiSet.get_eq_zero hv]

theorem MultiSet.positive_add {m : MultiSet} (hm : m.Positive) (v : Cell) :
    (m.add v).Positive := by
  rw [MultiSet.positive_iff_get]
  intro w hw
  by_cases hwv : w = v
  · subst hwv
    rw [MultiSet.get_add_self]
    have := MultiSet.get_nonneg hm w; omega
  · rw [MultiSet.get_add_ne m hwv]
    have hw' : w ∈ m.domain := by
      have hd : (m.add v).domain = insert v m.domain := rfl
      rw [hd, Finset.mem_insert] at hw
      tauto
    exact (MultiSet.positive_iff_get m).mp hm w hw'

theorem MultiSet.positive_remove {m : MultiSet} (hm : m.Positive) {v : Cell}
    (hg : 0 < m.get v) : (m.remove v).Positive := by
  rw [MultiSet.positive_iff_get]
  intro w hw
  by_cases hwv : w = v
  · subst hwv
    rw [MultiSet.get_remove_self]
    unfold MultiSet.remove at hw
    by_cases h : m.get w - 1 = 0
    · rw [if_pos h] at hw
      exact absurd rfl (Finset.mem_erase.mp hw).1
    · omega
  · rw [MultiSet.get_remove_ne m hwv]
    have hw' : w ∈ m.domain := by
      unfold MultiSet.remove at hw
      by_cases h : m.get v - 1 = 0
      · rw [if_pos h] at hw
        exact Finset.mem_of_mem_erase hw
      · rw [if_neg h] at hw
        rcases Finset.mem_insert.mp hw with h1 | h1
        · exact absurd h1 hwv
        · exact h1
    exact (MultiSet.positive_iff_get m).mp hm w hw'

theorem MultiSet.size_nonneg {m : MultiSet} (hm : m.Positive) : 0 ≤ m.size :=
  Finset.sum_nonneg fun v hv => le_of_lt (hm v hv)

theorem applyOps_size (m : MultiSet) (ops : List MOp) :
    (applyOps m ops).size = m.size + addsCount ops - removesCount ops := by
  induction ops generalizing m with
  | nil => simp [applyOps, addsCount, removesCount]
  | cons op l ih =>
    cases op with
    | madd v =>
      simp only [applyOps, addsCount, removesCount]
      rw [ih, MultiSet.size_add]; ring
    | mremove v =>
      simp only [applyOps, addsCount, removesCount]
      rw [ih, MultiSet.size_remove]; ring

theorem applyOps_positive {m : MultiSet} (hm : m.Positive) {ops : List MOp}
    (hops : ValidOps m ops) : (applyOps m ops).Positive := by
  induction ops generalizing m with
  | nil => simpa [applyOps] using hm
  | cons op l ih =>
    cases op with
    | madd v =>
      simp only [ValidOps] at hops
      simp only [applyOps]
      exact ih (MultiSet.positive_add hm v) hops
    | mremove v =>
      simp only [ValidOps] at hops
      simp only [applyOps]
      exact ih (MultiSet.positive_remove hm hops.1) hops.2

/-- C7 counterexample: calling `remove` on an empty `MultiSet` stores the
count `-1` for the removed value — a stored occurrence count that is not
positive — and makes the total size (sum of counts) equal to `-1`,
which is negative.  This refutes the unconditional parts of the claim
("all stored occurrence counts are positive", "the total size is never
negative"). -/
theorem C7_counterexample :
    (0, 0) ∈ (MultiSet.empty.remove (0, 0)).domain ∧
    (MultiSet.empty.remove (0, 0)).count (0, 0) = -1 ∧
    (MultiSet.empty.remove (0, 0)).size = -1 := by
  decide

/-- C7 (amended): membership (`__contains__`) holds exactly when the
value is stored with a positive count; `add` increments the value's
count by one and touches no other value; `remove` decrements it by one,
deleting the entry when the stored count reaches exactly 0; and after
any sequence of `add`/`remove` calls in which every `remove` targets a
presently contained value, all stored counts remain positive and the
total size equals the starting size plus adds minus removes, hence
stays non-negative. -/
theorem C7_multiset_ops :
    (∀ (m : MultiSet) (v : Cell), 0 < m.get v ↔ v ∈ m.domain ∧ 0 < m.count v) ∧
    (∀ (m : MultiSet) (v : Cell), (m.add v).get v = m.get v + 1 ∧
      ∀ w, w ≠ v → (m.add v).get w = m.get w) ∧
    (∀ (m : MultiSet) (v : Cell), (m.remove v).get v = m.get v - 1 ∧
      (∀ w, w ≠ v → (m.remove v).get w = m.get w) ∧
      (m.get v = 1 → v ∉ (m.remove v).domain)) ∧
    (∀ (m : MultiSet) (ops : List MOp), m.Positive → ValidOps m ops →
      (applyOps m ops).Positive ∧
      (applyOps m ops).size = m.size + addsCount ops - removesCount ops ∧
      0 ≤ (applyOps m ops).size) := by
  refine ⟨?_, ?_, ?_, ?_⟩
  · intro m v
    unfold MultiSet.get
    by_cases hv : v ∈ m.domain <;> simp [hv]
  · intro m v
    exact ⟨MultiSet.get_add_self m v, fun w hw => MultiSet.get_add_ne m hw⟩
  · intro m v
    refine ⟨MultiSet.get_remove_self m v, fun w hw => MultiSet.get_remove_ne m hw, ?_⟩
    intro h1
    unfold MultiSet.remove
    rw [if_pos (by omega)]
    simp
  · intro m ops hm hops
    have hpos := applyOps_positive hm hops
    exact ⟨hpos, applyOps_size m ops, MultiSet.size_nonneg hpos⟩

/-- Witness for C7: a concrete run (two adds and one valid remove on the
empty multiset) satisfying the discipline, with the conclusions
evaluated. -/
theorem C7_witness :
    (applyOps MultiSet.empty [MOp.madd (0, 0), MOp.madd (0, 0), MOp.mremove (0, 0)]).Positive ∧
    (applyOps MultiSet.empty [MOp.madd (0, 0), MOp.madd (0, 0), MOp.mremove (0, 0)]).size =
      MultiSet.empty.size + addsCount [MOp.madd (0, 0), MOp.madd (0, 0), MOp.mremove (0, 0)]
        - removesCount [MOp.madd (0, 0), MOp.madd (0, 0), MOp.mremove (0, 0)] ∧
    0 ≤ (applyOps MultiSet.empty [MOp.madd (0, 0), MOp.madd (0, 0), MOp.mremove (0, 0)]).size :=
  C7_multiset_ops.2.2.2 MultiSet.empty [MOp.madd (0, 0), MOp.madd (0, 0), MOp.mremove (0, 0)]
    (fun v hv => by simp [MultiSet.empty] at hv)
    ⟨by decide, trivial⟩

/-! ## The movement cycle (claim C4) -/

theorem natAbs_mul_sign (h : ℤ) : (h.natAbs : ℤ) * sign h = h := by
  have hn := Int.natAbs_eq h
  unfold sign
  split_ifs <;> omega

theorem sum_range_if (n a : ℕ) (s : ℤ) :
    ((List.range n).map (fun i => if i < a then s else 0)).sum = ((min a n : ℕ) : ℤ) * s := by
  induction n with
  | zero => simp
  | succ n ih =>
    rw [List.range_succ, List.map_append, List.sum_append]
    simp only [List.map_cons, List.map_nil, List.sum_cons, List.sum_nil]
    rw [ih]
    by_cases hna : n < a
    · rw [if_pos hna]
      have h1 : min a (n + 1) = n + 1 := by omega
      have h2 : min a n = n := by omega
      rw [h1, h2]
      push_cast
      ring
    · rw [if_neg hna]
      have h1 : min a (n + 1) = min a n := by omega
      rw [h1]
      ring

theorem list_sum_fst (l : List (ℤ × ℤ)) : l.sum.1 = (l.map Prod.fst).sum := by
  induction l with
  | nil => rfl
  | cons x l ih => simp [List.sum_cons, ih]

theorem list_sum_snd (l : List (ℤ × ℤ)) : l.sum.2 = (l.map Prod.snd).sum := by
  induction l with
  | nil => rfl
  | cons x l ih => simp [List.sum_cons, ih]

theorem movementPeriod_sum (h v : ℤ) : (movementPeriod h v).sum = (h, v) := by
  apply Prod.ext
  · rw [list_sum_fst]
    unfold movementPeriod
    rw [List.map_cons, List.map_map, List.sum_cons]
    have hc : (Prod.fst ∘ fun i =>
        ((if i < h.natAbs then sign h else 0 : ℤ), (if i < v.natAbs then sign v else 0 : ℤ)))
        = fun i => if i < h.natAbs then sign h else 0 := rfl
    rw [hc, sum_range_if]
    have hmin : min h.natAbs (max h.natAbs v.natAbs) = h.natAbs :=
      min_eq_left (le_max_left _ _)
    rw [hmin]
    show 0 + (h.natAbs : ℤ) * sign h = h
    rw [natAbs_mul_sign]
    ring
  · rw [list_sum_snd]
    unfold movementPeriod
    rw [List.map_cons, List.map_map, List.sum_cons]
    have hc : (Prod.snd ∘ fun i =>
        ((if i < h.natAbs then sign h else 0 : ℤ), (if i < v.natAbs then sign v else 0 : ℤ)))
        = fun i => if i < v.natAbs then sign v else 0 := rfl
    rw [hc, sum_range_if]
    have hmin : min v.natAbs (max h.natAbs v.natAbs) = v.natAbs :=
      min_eq_left (le_max_right _ _)
    rw [hmin]
    show 0 + (v.natAbs : ℤ) * sign v = v
    rw [natAbs_mul_sign]
    ring

theorem movementPeriod_length (h v : ℤ) :
    (movementPeriod h v).length = 1 + max h.natAbs v.natAbs := by
  simp [movementPeriod, Nat.add_comm]

theorem movementPeriod_length_pos (h v : ℤ) : 0 < (movementPeriod h v).length := by
  rw [movementPeriod_length]
  omega

theorem movementAt_zero (h v : ℤ) : movementAt h v 0 = (0, 0) := by
  unfold movementAt
  rw [Nat.zero_mod]
  rfl

theorem movementAt_mem (h v : ℤ) (n : ℕ) : movementAt h v n ∈ movementPeriod h v := by
  unfold movementAt
  have hlt : n % (movementPeriod h v).length < (movementPeriod h v).length :=
    Nat.mod_lt _ (movementPeriod_length_pos h v)
  rw [List.getD_eq_getElem _ _ hlt]
  exact List.getElem_mem hlt

theorem movementPeriod_mem_components {h v : ℤ} {p : ℤ × ℤ}
    (hp : p ∈ movementPeriod h v) :
    (p.1 = -1 ∨ p.1 = 0 ∨ p.1 = 1) ∧ (p.2 = -1 ∨ p.2 = 0 ∨ p.2 = 1) := by
  unfold movementPeriod at hp
  rcases List.mem_cons.mp hp with rfl | hp
  · simp
  · obtain ⟨i, hi, rfl⟩ := List.mem_map.mp hp
    unfold sign
    constructor <;> split_ifs <;> simp

/-- C4: for a structure accepted by the analysis with net leaf bias
`(h, v)`, the derived movement sequence is cyclic with one period of
length `1 + max(|h|, |v|)` whose first element is `(0, 0)`; the first
vector a fresh generator yields is `(0, 0)`, every yielded vector has
both components in `\x7b-1, 0, 1\x7d`, and the sum over one full period is
exactly `(h, v)`. -/
theorem C4_movement_cycle (cells : Finset Cell) (h v : ℤ)
    (htree : IsTree cells (0, 0)) (hb : biasOf cells = (h, v)) :
    (movementPeriod h v).length = 1 + max h.natAbs v.natAbs ∧
    (movementPeriod h v).head? = some (0, 0) ∧
    movementAt h v 0 = (0, 0) ∧
    (∀ p ∈ movementPeriod h v,
      (p.1 = -1 ∨ p.1 = 0 ∨ p.1 = 1) ∧ (p.2 = -1 ∨ p.2 = 0 ∨ p.2 = 1)) ∧
    (movementPeriod h v).sum = (h, v) ∧
    (∀ n, movementAt h v (n + (movementPeriod h v).length) = movementAt h v n) ∧
    (∀ n, movementAt h v n ∈ movementPeriod h v) :=
  ⟨movementPeriod_length h v, rfl, movementAt_zero h v,
   fun _ hp => movementPeriod_mem_components hp,
   movementPeriod_sum h v,
   fun n => by unfold movementAt; rw [Nat.add_mod_right],
   movementAt_mem h v⟩

/-- Witness for C4 at the concrete five-cell body `exMouthCells`
(whose analysis bias is `(0, 2)`). -/
theorem C4_witness :
    biasOf exMouthCells = (0, 2) ∧
    (movementPeriod 0 2).length = 1 + max (0 : ℤ).natAbs (2 : ℤ).natAbs ∧
    movementAt 0 2 0 = (0, 0) ∧
    (movementPeriod 0 2).sum = (0, 2) := by
  have htree : IsTree exMouthCells (0, 0) := by
    refine ⟨by decide, ?_, by decide⟩
    have r1 : Reach exMouthCells (0, 0) (0, 1) :=
      Relation.ReflTransGen.single ⟨by decide, by decide, by decide⟩
    have r2 : Reach exMouthCells (0, 0) (1, 1) :=
      r1.tail ⟨by decide, by decide, by decide⟩
    have r3 : Reach exMouthCells (0, 0) (2, 1) :=
      r2.tail ⟨by decide, by decide, by decide⟩
    have r4 : Reach exMouthCells (0, 0) (2, 0) :=
      r3.tail ⟨by decide, by decide, by decide⟩
    intro c hc
    simp only [exMouthCells, Finset.mem_insert, Finset.mem_singleton] at hc
    rcases hc with rfl | rfl | rfl | rfl | rfl
    · exact Relation.ReflTransGen.refl
    · exact r1
    · exact r2
    · exact r3
    · exact r4
  have hb : biasOf exMouthCells = (0, 2) := by decide
  have hmain := C4_movement_cycle exMouthCells 0 2 htree hb
  exact ⟨hb, hmain.1, hmain.2.2.1, hmain.2.2.2.2.1⟩

/-! ## Tree invariant machinery (claim C1) -/

theorem Reach.mono {s t : Finset Cell} (hst : s ⊆ t) {a b : Cell} (h : Reach s a b) :
    Reach t a b := by
  induction h with
  | refl => exact Relation.ReflTransGen.refl
  | tail hab hstep ih => exact ih.tail ⟨hst hstep.1, hst hstep.2.1, hstep.2.2⟩

theorem Reach.image {s : Finset Cell} {f : Cell → Cell}
    (hadj : ∀ a b : Cell, f a ∈ neighbours (f b) ↔ a ∈ neighbours b)
    {a b : Cell} (h : Reach s a b) : Reach (s.image f) (f a) (f b) := by
  induction h with
  | refl => exact Relation.ReflTransGen.refl
  | tail hab hstep ih =>
    exact ih.tail ⟨Finset.mem_image_of_mem f hstep.1,
      Finset.mem_image_of_mem f hstep.2.1, (hadj _ _).mpr hstep.2.2⟩

theorem inter_insert_self_eq {e : Cell} {s : Finset Cell} :
    neighbours e ∩ insert e s = neighbours e ∩ s := by
  ext x
  simp only [Finset.mem_inter, Finset.mem_insert]
  constructor
  · rintro ⟨hx, rfl | hxs⟩
    · exact absurd hx (neighbours_irrefl x)
    · exact ⟨hx, hxs⟩
  · rintro ⟨hx, hxs⟩
    exact ⟨hx, Or.inr hxs⟩

theorem inter_insert_card {c e : Cell} {s : Finset Cell} (he : e ∉ s) :
    (neighbours c ∩ insert e s).card
      = (neighbours c ∩ s).card + (if e ∈ neighbours c then 1 else 0) := by
  by_cases hc : e ∈ neighbours c
  · rw [if_pos hc]
    have hset : neighbours c ∩ insert e s = insert e (neighbours c ∩ s) := by
      ext x
      simp only [Finset.mem_inter, Finset.mem_insert]
      constructor
      · rintro ⟨hx, rfl | hxs⟩
        · exact Or.inl rfl
        · exact Or.inr ⟨hx, hxs⟩
      · rintro (rfl | ⟨hx, hxs⟩)
        · exact ⟨hc, Or.inl rfl⟩
        · exact ⟨hx, Or.inr hxs⟩
    rw [hset, Finset.card_insert_of_not_mem (fun hx => he (Finset.mem_inter.mp hx).2)]
  · rw [if_neg hc, add_zero]
    congr 1
    ext x
    simp only [Finset.mem_inter, Finset.mem_insert]
    constructor
    · rintro ⟨hx, rfl | hxs⟩
      · exact absurd hx hc
      · exact ⟨hx, hxs⟩
    · rintro ⟨hx, hxs⟩
      exact ⟨hx, Or.inr hxs⟩

theorem degSum_insert {e : Cell} {s : Finset Cell} (he : e ∉ s) :
    degSum (insert e s) = degSum s + 2 * (neighbours e ∩ s).card := by
  unfold degSum
  rw [Finset.sum_insert he, inter_insert_self_eq]
  have hsum : ∑ c ∈ s, (neighbours c ∩ insert e s).card
      = ∑ c ∈ s, ((neighbours c ∩ s).card + if e ∈ neighbours c then 1 else 0) :=
    Finset.sum_congr rfl fun c _ => inter_insert_card he
  rw [hsum, Finset.sum_add_distrib]
  have hcount : (∑ c ∈ s, if e ∈ neighbours c then 1 else 0) = (neighbours e ∩ s).card := by
    rw [← Finset.card_filter]
    congr 1
    ext x
    simp only [Finset.mem_filter, Finset.mem_inter]
    constructor
    · rintro ⟨hxs, hx⟩
      exact ⟨neighbours_symm.mp hx, hxs⟩
    · rintro ⟨hx, hxs⟩
      exact ⟨hxs, neighbours_symm.mp hx⟩
  rw [hcount]
  ring

theorem inter_erase_self_eq {x : Cell} {s : Finset Cell} :
    neighbours x ∩ s.erase x = neighbours x ∩ s := by
  ext y
  simp only [Finset.mem_inter, Finset.mem_erase]
  constructor
  · rintro ⟨hy, _, hys⟩
    exact ⟨hy, hys⟩
  · rintro ⟨hy, hys⟩
    exact ⟨hy, fun hyx => (neighbours_irrefl x) (hyx ▸ hy), hys⟩

theorem degSum_erase {x : Cell} {s : Finset Cell} (hx : x ∈ s) :
    degSum s = degSum (s.erase x) + 2 * (neighbours x ∩ s).card := by
  have he : x ∉ s.erase x := Finset.not_mem_erase x s
  have h2 := degSum_insert he
  rw [Finset.insert_erase hx] at h2
  rw [h2, inter_erase_self_eq]

theorem isTree_insert {s : Finset Cell} {e : Cell} (ht : IsTree s (0, 0))
    (he : e ∉ s) (h1 : (neighbours e ∩ s).card = 1) : IsTree (insert e s) (0, 0) := by
  obtain ⟨hh, hreach, hdeg⟩ := ht
  obtain ⟨n, hn⟩ := Finset.card_eq_one.mp h1
  have hns : n ∈ s ∧ n ∈ neighbours e := by
    have hmem : n ∈ neighbours e ∩ s := hn ▸ Finset.mem_singleton_self n
    exact ⟨(Finset.mem_inter.mp hmem).2, (Finset.mem_inter.mp hmem).1⟩
  refine ⟨Finset.mem_insert_of_mem hh, ?_, ?_⟩
  · intro c hc
    rcases Finset.mem_insert.mp hc with rfl | hcs
    · have hrn : Reach (insert c s) (0, 0) n :=
        (hreach n hns.1).mono (Finset.subset_insert c s)
      exact hrn.tail ⟨Finset.mem_insert_of_mem hns.1, Finset.mem_insert_self c s,
        neighbours_symm.mp hns.2⟩
    · exact (hreach c hcs).mono (Finset.subset_insert e s)
  · rw [degSum_insert he, hdeg, h1, Finset.card_insert_of_not_mem he]
    have hcard : 1 ≤ s.card := Finset.card_pos.mpr ⟨_, hh⟩
    omega

theorem reach_avoid {s : Finset Cell} {x n : Cell} (hx1 : neighbours x ∩ s = {n})
    {hd b : Cell} (hhd : hd ≠ x) (hb : Reach s hd b) :
    (b = x → Reach (s.erase x) hd n) ∧ (b ≠ x → Reach (s.erase x) hd b) := by
  have hnx : n ≠ x := by
    intro h
    subst h
    have hmem : n ∈ neighbours n ∩ s := hx1 ▸ Finset.mem_singleton_self n
    exact neighbours_irrefl n (Finset.mem_inter.mp hmem).1
  induction hb with
  | refl =>
    exact ⟨fun h => absurd h hhd, fun _ => Relation.ReflTransGen.refl⟩
  | @tail y b2 hab hstep ih =>
    obtain ⟨hys, hb2s, hadj⟩ := hstep
    constructor
    · rintro rfl
      have hyn : y = n := by
        have hmem : y ∈ neighbours b2 ∩ s :=
          Finset.mem_inter.mpr ⟨neighbours_symm.mp hadj, hys⟩
        rw [hx1] at hmem
        exact Finset.mem_singleton.mp hmem
      subst hyn
      exact ih.2 hnx
    · intro hb2x
      by_cases hyx : y = x
      · subst hyx
        have hb2n : b2 = n := by
          have hmem : b2 ∈ neighbours y ∩ s := Finset.mem_inter.mpr ⟨hadj, hb2s⟩
          rw [hx1] at hmem
          exact Finset.mem_singleton.mp hmem
        subst hb2n
        exact ih.1 rfl
      · exact (ih.2 hyx).tail ⟨Finset.mem_erase.mpr ⟨hyx, hys⟩,
          Finset.mem_erase.mpr ⟨hb2x, hb2s⟩, hadj⟩

theorem isTree_erase {s : Finset Cell} {x : Cell} (ht : IsTree s (0, 0))
    (hx : x ∈ s) (hxh : x ≠ (0, 0)) (h1 : (neighbours x ∩ s).card = 1) :
    IsTree (s.erase x) (0, 0) := by
  obtain ⟨hh, hreach, hdeg⟩ := ht
  obtain ⟨n, hn⟩ := Finset.card_eq_one.mp h1
  have hhd : ((0, 0) : Cell) ≠ x := fun h => hxh h.symm
  refine ⟨Finset.mem_erase.mpr ⟨hhd, hh⟩, ?_, ?_⟩
  · intro c hc
    obtain ⟨hcx, hcs⟩ := Finset.mem_erase.mp hc
    exact (reach_avoid hn hhd (hreach c hcs)).2 hcx
  · have h2 := degSum_erase hx
    rw [h1, hdeg] at h2
    have hcard : 1 < s.card := Finset.one_lt_card.mpr ⟨x, hx, (0, 0), hh, hxh⟩
    rw [Finset.card_erase_of_mem hx]
    omega

theorem isTree_image {s : Finset Cell} {f : Cell → Cell}
    (hinj : Function.Injective f)
    (hadj : ∀ a b : Cell, f a ∈ neighbours (f b) ↔ a ∈ neighbours b)
    (hf0 : f (0, 0) = (0, 0)) (ht : IsTree s (0, 0)) : IsTree (s.image f) (0, 0) := by
  obtain ⟨hh, hreach, hdeg⟩ := ht
  refine ⟨?_, ?_, ?_⟩
  · rw [← hf0]
    exact Finset.mem_image_of_mem f hh
  · intro c hc
    obtain ⟨z, hz, rfl⟩ := Finset.mem_image.mp hc
    have hr := (hreach z hz).image hadj
    rwa [hf0] at hr
  · unfold degSum
    rw [Finset.sum_image (fun a _ b _ h => hinj h)]
    have hinter : ∀ c ∈ s, neighbours (f c) ∩ s.image f = (neighbours c ∩ s).image f := by
      intro c _
      ext y
      simp only [Finset.mem_inter, Finset.mem_image]
      constructor
      · rintro ⟨hy, z, hz, rfl⟩
        exact ⟨z, ⟨(hadj z c).mp hy, hz⟩, rfl⟩
      · rintro ⟨z, ⟨hz1, hz2⟩, rfl⟩
        exact ⟨(hadj z c).mpr hz1, z, hz2, rfl⟩
    have hcongr : ∀ c ∈ s, (neighbours (f c) ∩ s.image f).card = (neighbours c ∩ s).card := by
      intro c hc
      rw [hinter c hc, Finset.card_image_of_injective _ hinj]
    rw [Finset.sum_congr rfl hcongr, Finset.card_image_of_injective _ hinj]
    exact hdeg

/-! ## Creature operations preserve the invariant -/

theorem analyze_head (c : Creature) : c.analyze.head = c.head := rfl

theorem analyze_position (c : Creature) : c.analyze.position = c.position := rfl

theorem analyze_energy (c : Creature) : c.analyze.energy = c.energy := rfl

theorem analyze_age (c : Creature) : c.analyze.age = c.age := rfl

theorem analyze_cells_of_head₀ {c : Creature} (hh : c.head = (0, 0)) :
    c.analyze.cells = c.cells := by
  unfold Creature.analyze
  simp [hh]

theorem mirrorH_inj : Function.Injective (fun p : Cell => (-p.1, p.2)) := by
  intro a b h
  simp only [Prod.mk.injEq] at h
  rw [Prod.ext_iff]
  omega

theorem mirrorV_inj : Function.Injective (fun p : Cell => (p.1, -p.2)) := by
  intro a b h
  simp only [Prod.mk.injEq] at h
  rw [Prod.ext_iff]
  omega

theorem rotR_inj : Function.Injective (fun p : Cell => (p.2, -p.1)) := by
  intro a b h
  simp only [Prod.mk.injEq] at h
  rw [Prod.ext_iff]
  omega

theorem rotL_inj : Function.Injective (fun p : Cell => (-p.2, p.1)) := by
  intro a b h
  simp only [Prod.mk.injEq] at h
  rw [Prod.ext_iff]
  omega

theorem mirrorH_adj (a b : Cell) :
    ((- a.1, a.2) : Cell) ∈ neighbours (- b.1, b.2) ↔ a ∈ neighbours b := by
  simp only [mem_neighbours]
  omega

theorem mirrorV_adj (a b : Cell) :
    ((a.1, - a.2) : Cell) ∈ neighbours (b.1, - b.2) ↔ a ∈ neighbours b := by
  simp only [mem_neighbours]
  omega

theorem rotR_adj (a b : Cell) :
    ((a.2, - a.1) : Cell) ∈ neighbours (b.2, - b.1) ↔ a ∈ neighbours b := by
  simp only [mem_neighbours]
  omega

theorem rotL_adj (a b : Cell) :
    ((- a.2, a.1) : Cell) ∈ neighbours (- b.2, b.1) ↔ a ∈ neighbours b := by
  simp only [mem_neighbours]
  omega

theorem valid_image_op {c : Creature} (hv : ValidCreature c) (f : Cell → Cell)
    (hinj : Function.Injective f)
    (hadj : ∀ a b : Cell, f a ∈ neighbours (f b) ↔ a ∈ neighbours b)
    (hf0 : f (0, 0) = (0, 0)) :
    ValidCreature (Creature.analyze { c with cells := c.cells.image f }) := by
  obtain ⟨hh, ht⟩ := hv
  have hh2 : ({ c with cells := c.cells.image f } : Creature).head = (0, 0) := hh
  refine ⟨by rw [analyze_head]; exact hh2, ?_⟩
  rw [analyze_cells_of_head₀ hh2]
  exact isTree_image hinj hadj hf0 ht

theorem add_random_cell_eq_some {c c' : Creature} {ao : List Cell}
    (h : c.add_random_cell ao = some c') :
    ∃ e, e ∈ growthCandidates c.cells ∧
      c' = Creature.analyze { c with cells := insert e c.cells } := by
  unfold Creature.add_random_cell at h
  cases hfind : ao.find? (fun e => decide (e ∈ growthCandidates c.cells)) with
  | none => rw [hfind] at h; exact absurd h (by simp)
  | some e =>
    rw [hfind] at h
    have he := List.find?_some hfind
    rw [decide_eq_true_iff] at he
    exact ⟨e, he, (Option.some.inj h).symm⟩

theorem remove_random_cell_eq_some {c c' : Creature} {ro : List Cell}
    (h : c.remove_random_cell ro = some c') :
    ∃ x, x ∈ c.cells ∧ x ≠ c.head ∧ (neighbours x ∩ c.cells).card = 1 ∧
      c' = Creature.analyze { c with cells := c.cells.erase x } := by
  unfold Creature.remove_random_cell at h
  cases hfind : ro.find? (fun x =>
      decide (x ∈ c.cells ∧ x ≠ c.head ∧ (neighbours x ∩ c.cells).card = 1)) with
  | none => rw [hfind] at h; exact absurd h (by simp)
  | some x =>
    rw [hfind] at h
    have hx := List.find?_some hfind
    rw [decide_eq_true_iff] at hx
    exact ⟨x, hx.1, hx.2.1, hx.2.2, (Option.some.inj h).symm⟩

theorem mutate_ok {c c' : Creature} {coin : Bool} {ro ao : List Cell}
    (h : c.mutate coin ro ao = MutResult.ok c') :
    c.add_random_cell ao = some c' ∨ c.remove_random_cell ro = some c' := by
  unfold Creature.mutate at h
  by_cases hcoin : coin
  · rw [if_pos hcoin] at h
    unfold addAttempt at h
    cases hadd : c.add_random_cell ao with
    | none => rw [hadd] at h; exact absurd h (by simp)
    | some c2 =>
      rw [hadd] at h
      have h2 : c2 = c' := MutResult.ok.inj h
      subst h2
      exact Or.inl rfl
  · rw [if_neg hcoin] at h
    cases hrem : c.remove_random_cell ro with
    | some c2 =>
      rw [hrem] at h
      have h2 : c2 = c' := MutResult.ok.inj h
      subst h2
      exact Or.inr rfl
    | none =>
      rw [hrem] at h
      unfold addAttempt at h
      cases hadd : c.add_random_cell ao with
      | none => rw [hadd] at h; exact absurd h (by simp)
      | some c2 =>
        rw [hadd] at h
        have h2 : c2 = c' := MutResult.ok.inj h
        subst h2
        exact Or.inl rfl

theorem valid_add_random_cell {c c' : Creature} (hv : ValidCreature c) {ao : List Cell}
    (h : c.add_random_cell ao = some c') : ValidCreature c' := by
  obtain ⟨e, he, rfl⟩ := add_random_cell_eq_some h
  obtain ⟨hh, ht⟩ := hv
  have hmem := Finset.mem_filter.mp he
  have hes : e ∉ c.cells := (Finset.mem_sdiff.mp hmem.1).2
  have hh2 : ({ c with cells := insert e c.cells } : Creature).head = (0, 0) := hh
  refine ⟨by rw [analyze_head]; exact hh2, ?_⟩
  rw [analyze_cells_of_head₀ hh2]
  exact isTree_insert ht hes hmem.2

theorem valid_remove_random_cell {c c' : Creature} (hv : ValidCreature c) {ro : List Cell}
    (h : c.remove_random_cell ro = some c') : ValidCreature c' := by
  obtain ⟨x, hxs, hxh, hx1, rfl⟩ := remove_random_cell_eq_some h
  obtain ⟨hh, ht⟩ := hv
  have hh2 : ({ c with cells := c.cells.erase x } : Creature).head = (0, 0) := hh
  refine ⟨by rw [analyze_head]; exact hh2, ?_⟩
  rw [analyze_cells_of_head₀ hh2]
  exact isTree_erase ht hxs (by rw [hh] at hxh; exact hxh) hx1

theorem valid_CStep {c c' : Creature} (hv : ValidCreature c) (hs : CStep c c') :
    ValidCreature c' := by
  cases hs with
  | mirrorH =>
    show ValidCreature (Creature.analyze { c with cells := c.cells.image fun p => (-p.1, p.2) })
    exact valid_image_op hv _ mirrorH_inj (fun a b => mirrorH_adj a b) (by decide)
  | mirrorV =>
    show ValidCreature (Creature.analyze { c with cells := c.cells.image fun p => (p.1, -p.2) })
    exact valid_image_op hv _ mirrorV_inj (fun a b => mirrorV_adj a b) (by decide)
  | rotR =>
    show ValidCreature (Creature.analyze { c with cells := c.cells.image fun p => (p.2, -p.1) })
    exact valid_image_op hv _ rotR_inj (fun a b => rotR_adj a b) (by decide)
  | rotL =>
    show ValidCreature (Creature.analyze { c with cells := c.cells.image fun p => (-p.2, p.1) })
    exact valid_image_op hv _ rotL_inj (fun a b => rotL_adj a b) (by decide)
  | addc _ ao h => exact valid_add_random_cell hv h
  | removec _ ro h => exact valid_remove_random_cell hv h
  | mutc _ coin ro ao h =>
    rcases mutate_ok h with h2 | h2
    · exact valid_add_random_cell hv h2
    · exact valid_remove_random_cell hv h2

/-- C1: starting from a valid organism (head attribute `(0,0)`, cells a
tree rooted at the head cell `(0,0)`), any sequence of the operations
`mutate`, `add_random_cell`, `remove_random_cell`, `mirror_horizontal`,
`mirror_vertical`, `rotate_left`, `rotate_right` — under every possible
choice of their random scan orders and coin flips — yields an organism
whose cells are still connected from the head under 4-adjacency and
still acyclic (the induced adjacency graph is a tree), with the head
cell at `(0,0)` after each operation. -/
theorem C1_invariant_preservation {c c' : Creature} (hv : ValidCreature c)
    (hsteps : Relation.ReflTransGen CStep c c') : ValidCreature c' := by
  induction hsteps with
  | refl => exact hv
  | tail hab hstep ih => exact valid_CStep ih hstep

/-- Witness for C1: the single-cell organism is valid, and one
`mirror_horizontal` step keeps it valid. -/
theorem C1_witness :
    ValidCreature (Creature.init (0, 0) {(0, 0)} (0, 0) 0).mirror_horizontal := by
  have hv : ValidCreature (Creature.init (0, 0) {(0, 0)} (0, 0) 0) := by
    refine ⟨by decide, by decide, ?_, by decide⟩
    intro c hc
    have hcells : (Creature.init (0, 0) {(0, 0)} (0, 0) 0).cells = {(0, 0)} := by decide
    rw [hcells] at hc
    have hc0 := Finset.mem_singleton.mp hc
    subst hc0
    exact Relation.ReflTransGen.refl
  exact C1_invariant_preservation hv (Relation.ReflTransGen.single (CStep.mirrorH _))

/-! ## Claims C6, C8, C9, C10 -/

/-- C6: evaluation of the code at the failing input.  Constructing a
creature with cells `{(2,3)}` and head `(2,3)` runs `analyze`, which
re-bases the cells to `{(0,0)}` but never re-assigns `self.head`: the
head attribute stays `(2,3)`, is not `(0,0)`, and afterwards is not even
a member of the cell set. -/
theorem C6_head_not_reset :
    (Creature.init (5, 5) {(2, 3)} (2, 3) 0).cells = {(0, 0)} ∧
    (Creature.init (5, 5) {(2, 3)} (2, 3) 0).head = (2, 3) ∧
    (Creature.init (5, 5) {(2, 3)} (2, 3) 0).head ≠ (0, 0) ∧
    (Creature.init (5, 5) {(2, 3)} (2, 3) 0).head ∉
      (Creature.init (5, 5) {(2, 3)} (2, 3) 0).cells := by
  decide

theorem mirror_horizontal_cells {c : Creature} (hh : c.head = (0, 0)) :
    c.mirror_horizontal.cells = c.cells.image (fun p : Cell => (-p.1, p.2)) :=
  analyze_cells_of_head₀ (show ({ c with cells := c.cells.image fun p : Cell => (-p.1, p.2) } :
    Creature).head = (0, 0) from hh)

theorem mirror_vertical_cells {c : Creature} (hh : c.head = (0, 0)) :
    c.mirror_vertical.cells = c.cells.image (fun p : Cell => (p.1, -p.2)) :=
  analyze_cells_of_head₀ (show ({ c with cells := c.cells.image fun p : Cell => (p.1, -p.2) } :
    Creature).head = (0, 0) from hh)

theorem rotate_right_cells {c : Creature} (hh : c.head = (0, 0)) :
    c.rotate_right.cells = c.cells.image (fun p : Cell => (p.2, -p.1)) :=
  analyze_cells_of_head₀ (show ({ c with cells := c.cells.image fun p : Cell => (p.2, -p.1) } :
    Creature).head = (0, 0) from hh)

theorem rotate_left_cells {c : Creature} (hh : c.head = (0, 0)) :
    c.rotate_left.cells = c.cells.image (fun p : Cell => (-p.2, p.1)) :=
  analyze_cells_of_head₀ (show ({ c with cells := c.cells.image fun p : Cell => (-p.2, p.1) } :
    Creature).head = (0, 0) from hh)

theorem image_invol {s : Finset Cell} {f g : Cell → Cell} (h : ∀ p : Cell, g (f p) = p) :
    (s.image f).image g = s := by
  rw [Finset.image_image]
  have h2 : s.image (g ∘ f) = s.image id := Finset.image_congr fun p _ => h p
  rw [h2, Finset.image_id]

/-- C8: on an organism whose head attribute is `(0,0)` (so the
normalization inside `analyze` is the identity), applying
`mirror_horizontal` twice, or `mirror_vertical` twice, returns the
original cell set, and `rotate_left` followed by `rotate_right` (or
vice versa) returns the original cell set. -/
theorem C8_transforms_inverse (c : Creature) (hh : c.head = (0, 0)) :
    c.mirror_horizontal.mirror_horizontal.cells = c.cells ∧
    c.mirror_vertical.mirror_vertical.cells = c.cells ∧
    c.rotate_left.rotate_right.cells = c.cells ∧
    c.rotate_right.rotate_left.cells = c.cells := by
  have hh1 : c.mirror_horizontal.head = (0, 0) := hh
  have hh2 : c.mirror_vertical.head = (0, 0) := hh
  have hh3 : c.rotate_left.head = (0, 0) := hh
  have hh4 : c.rotate_right.head = (0, 0) := hh
  refine ⟨?_, ?_, ?_, ?_⟩
  · rw [mirror_horizontal_cells hh1, mirror_horizontal_cells hh]
    exact image_invol fun p => by simp
  · rw [mirror_vertical_cells hh2, mirror_vertical_cells hh]
    exact image_invol fun p => by simp
  · rw [rotate_right_cells hh3, rotate_left_cells hh]
    exact image_invol fun p => by simp
  · rw [rotate_left_cells hh4, rotate_right_cells hh]
    exact image_invol fun p => by simp

/-- Witness for C8 on a concrete five-cell organism. -/
theorem C8_witness :
    (Creature.init (0, 0) exMouthCells (0, 0) 0).mirror_horizontal.mirror_horizontal.cells
      = (Creature.init (0, 0) exMouthCells (0, 0) 0).cells ∧
    (Creature.init (0, 0) exMouthCells (0, 0) 0).mirror_vertical.mirror_vertical.cells
      = (Creature.init (0, 0) exMouthCells (0, 0) 0).cells ∧
    (Creature.init (0, 0) exMouthCells (0, 0) 0).rotate_left.rotate_right.cells
      = (Creature.init (0, 0) exMouthCells (0, 0) 0).cells ∧
    (Creature.init (0, 0) exMouthCells (0, 0) 0).rotate_right.rotate_left.cells
      = (Creature.init (0, 0) exMouthCells (0, 0) 0).cells :=
  C8_transforms_inverse (Creature.init (0, 0) exMouthCells (0, 0) 0) (by decide)

theorem remove_random_cell_eq_none {c : Creature} {ro : List Cell}
    (hro : ∀ x ∈ ro, ¬(x ∈ c.cells ∧ x ≠ c.head ∧ (neighbours x ∩ c.cells).card = 1)) :
    c.remove_random_cell ro = none := by
  unfold Creature.remove_random_cell
  rw [List.find?_eq_none.mpr (fun x hx => by simpa using hro x hx)]

theorem add_random_cell_eq_none {c : Creature} {ao : List Cell}
    (hao : ∀ e ∈ ao, e ∉ growthCandidates c.cells) :
    c.add_random_cell ao = none := by
  unfold Creature.add_random_cell
  rw [List.find?_eq_none.mpr (fun e he => by simpa using hao e he)]

/-- C9: when the scan finds no non-head cell with exactly one living
neighbour, `remove_random_cell` reports recoverable failure (`none`,
the organism unmodified) and `mutate` on the remove branch falls back
to an add attempt; when the add scan exhausts every candidate without a
valid attachment point, `add_random_cell` fails (`none`) and the
mutation engine turns that into the fatal `MutResult.fatal` (the raised
exception) rather than a no-op success. -/
theorem C9_failure_modes (c : Creature) (ro ao : List Cell) :
    ((∀ x ∈ ro, ¬(x ∈ c.cells ∧ x ≠ c.head ∧ (neighbours x ∩ c.cells).card = 1)) →
      c.remove_random_cell ro = none ∧
      c.mutate false ro ao = addAttempt c ao) ∧
    ((∀ e ∈ ao, e ∉ growthCandidates c.cells) →
      c.add_random_cell ao = none ∧
      addAttempt c ao = MutResult.fatal) := by
  constructor
  · intro hro
    have h1 := remove_random_cell_eq_none hro
    refine ⟨h1, ?_⟩
    unfold Creature.mutate
    rw [if_neg (by simp), h1]
  · intro hao
    have h2 := add_random_cell_eq_none hao
    refine ⟨h2, ?_⟩
    unfold addAttempt
    rw [h2]

/-- Witness for C9: a single-cell organism has no removable leaf (its
only cell is the head), and an empty add scan is exhausted. -/
theorem C9_witness :
    (Creature.init (0, 0) {(0, 0)} (0, 0) 0).remove_random_cell [(0, 0)] = none ∧
    (Creature.init (0, 0) {(0, 0)} (0, 0) 0).mutate false [(0, 0)] [] =
      addAttempt (Creature.init (0, 0) {(0, 0)} (0, 0) 0) [] ∧
    (Creature.init (0, 0) {(0, 0)} (0, 0) 0).add_random_cell [] = none ∧
    addAttempt (Creature.init (0, 0) {(0, 0)} (0, 0) 0) [] = MutResult.fatal := by
  have h := C9_failure_modes (Creature.init (0, 0) {(0, 0)} (0, 0) 0) [(0, 0)] []
  have h1 := h.1 (by decide)
  have h2 := h.2 (by simp)
  exact ⟨h1.1, h1.2, h2.1, h2.2⟩

/-- C10: `analyze`, the four mirror/rotate transforms, and the mutation
operations (`remove_random_cell`, `add_random_cell`, `mutate`, whenever
they return a creature) leave the `position`, `energy`, `age` and
`head` fields unchanged — they modify only `cells` and the derived
mouth/movement state. -/
theorem C10_frame (c : Creature) :
    (c.analyze.position = c.position ∧ c.analyze.energy = c.energy ∧
      c.analyze.age = c.age ∧ c.analyze.head = c.head) ∧
    (c.mirror_horizontal.position = c.position ∧ c.mirror_horizontal.energy = c.energy ∧
      c.mirror_horizontal.age = c.age ∧ c.mirror_horizontal.head = c.head) ∧
    (c.mirror_vertical.position = c.position ∧ c.mirror_vertical.energy = c.energy ∧
      c.mirror_vertical.age = c.age ∧ c.mirror_vertical.head = c.head) ∧
    (c.rotate_left.position = c.position ∧ c.rotate_left.energy = c.energy ∧
      c.rotate_left.age = c.age ∧ c.rotate_left.head = c.head) ∧
    (c.rotate_right.position = c.position ∧ c.rotate_right.energy = c.energy ∧
      c.rotate_right.age = c.age ∧ c.rotate_right.head = c.head) ∧
    (∀ (ro : List Cell) (c' : Creature), c.remove_random_cell ro = some c' →
      c'.position = c.position ∧ c'.energy = c.energy ∧ c'.age = c.age ∧ c'.head = c.head) ∧
    (∀ (ao : List Cell) (c' : Creature), c.add_random_cell ao = some c' →
      c'.position = c.position ∧ c'.energy = c.energy ∧ c'.age = c.age ∧ c'.head = c.head) ∧
    (∀ (coin : Bool) (ro ao : List Cell) (c' : Creature),
      c.mutate coin ro ao = MutResult.ok c' →
      c'.position = c.position ∧ c'.energy = c.energy ∧ c'.age = c.age ∧ c'.head = c.head) := by
  refine ⟨⟨rfl, rfl, rfl, rfl⟩, ⟨rfl, rfl, rfl, rfl⟩, ⟨rfl, rfl, rfl, rfl⟩,
    ⟨rfl, rfl, rfl, rfl⟩, ⟨rfl, rfl, rfl, rfl⟩, ?_, ?_, ?_⟩
  · intro ro c' h
    obtain ⟨x, _, _, _, rfl⟩ := remove_random_cell_eq_some h
    exact ⟨rfl, rfl, rfl, rfl⟩
  · intro ao c' h
    obtain ⟨e, _, rfl⟩ := add_random_cell_eq_some h
    exact ⟨rfl, rfl, rfl, rfl⟩
  · intro coin ro ao c' h
    rcases mutate_ok h with h2 | h2
    · obtain ⟨e, _, rfl⟩ := add_random_cell_eq_some h2
      exact ⟨rfl, rfl, rfl, rfl⟩
    · obtain ⟨x, _, _, _, rfl⟩ := remove_random_cell_eq_some h2
      exact ⟨rfl, rfl, rfl, rfl⟩

/-- Witness for C10: a successful concrete `remove_random_cell` call
(removing the leaf `(2, 0)` of a five-cell body) keeps position, energy,
age and head. -/
theorem C10_witness :
    exRemoved.position = (1, 2) ∧ exRemoved.energy = 5 ∧ exRemoved.age = 0 ∧
    exRemoved.head = (0, 0) := by
  have h := (C10_frame exRemoveInput).2.2.2.2.2.1 [(2, 0)] exRemoved (by decide)
  exact ⟨h.1.trans (by decide), h.2.1.trans (by decide), h.2.2.1.trans (by decide),
    h.2.2.2.trans (by decide)⟩

/-! ## The mouth loop of `Zoo.step` -/

theorem absPos_inj (pos : Cell) : Function.Injective (absPos pos) := by
  intro a b h
  simp only [absPos, Prod.mk.injEq] at h
  rw [Prod.ext_iff]
  omega

theorem absPos_zero (pos : Cell) : absPos pos (0, 0) = pos := by
  simp [absPos]

theorem tickStart_position (cfg : Config) (c : Creature) :
    (tickStart cfg c).position = c.position := rfl

theorem tickStart_head (cfg : Config) (c : Creature) : (tickStart cfg c).head = c.head := rfl

theorem tickStart_cells (cfg : Config) (c : Creature) : (tickStart cfg c).cells = c.cells := rfl

theorem tickStart_energy (cfg : Config) (c : Creature) :
    (tickStart cfg c).energy = c.energy - cfg.energy_loss := rfl

theorem processMouth_food (cfg : Config) (births : Cell → Creature → Creature)
    (c : Creature) (st : MouthOut) (m : Cell) (p : Cell) :
    (processMouth cfg births c st m).food.get p
      = if p = absPos c.position m ∧ 0 < st.food.get (absPos c.position m)
        then st.food.get p - 1 else st.food.get p := by
  simp only [processMouth]
  by_cases hf : 0 < st.food.get (absPos c.position m)
  · rw [if_pos hf]
    dsimp only
    by_cases hk : 0 < st.keys.get (absPos c.position m)
    · rw [if_pos hk]
      dsimp only
      by_cases hp : p = absPos c.position m
      · subst hp
        rw [MultiSet.get_remove_self, if_pos ⟨rfl, hf⟩]
      · rw [MultiSet.get_remove_ne _ hp, if_neg (fun hcon => hp hcon.1)]
    · rw [if_neg hk]
      dsimp only
      by_cases hp : p = absPos c.position m
      · subst hp
        rw [MultiSet.get_remove_self, if_pos ⟨rfl, hf⟩]
      · rw [MultiSet.get_remove_ne _ hp, if_neg (fun hcon => hp hcon.1)]
  · rw [if_neg hf]
    by_cases hk : 0 < st.keys.get (absPos c.position m)
    · rw [if_pos hk]
      dsimp only
      rw [if_neg (fun hcon => hf hcon.2)]
    · rw [if_neg hk]
      rw [if_neg (fun hcon => hf hcon.2)]

theorem processMouth_keys (cfg : Config) (births : Cell → Creature → Creature)
    (c : Creature) (st : MouthOut) (m : Cell) (p : Cell) :
    (processMouth cfg births c st m).keys.get p
      = if p = absPos c.position m ∧ 0 < st.keys.get (absPos c.position m)
        then st.keys.get p - 1 else st.keys.get p := by
  simp only [processMouth]
  by_cases hf : 0 < st.food.get (absPos c.position m)
  · rw [if_pos hf]
    dsimp only
    by_cases hk : 0 < st.keys.get (absPos c.position m)
    · rw [if_pos hk]
      dsimp only
      by_cases hp : p = absPos c.position m
      · subst hp
        rw [MultiSet.get_remove_self, if_pos ⟨rfl, hk⟩]
      · rw [MultiSet.get_remove_ne _ hp, if_neg (fun hcon => hp hcon.1)]
    · rw [if_neg hk]
      dsimp only
      rw [if_neg (fun hcon => hk hcon.2)]
  · rw [if_neg hf]
    by_cases hk : 0 < st.keys.get (absPos c.position m)
    · rw [if_pos hk]
      dsimp only
      by_cases hp : p = absPos c.position m
      · subst hp
        rw [MultiSet.get_remove_self, if_pos ⟨rfl, hk⟩]
      · rw [MultiSet.get_remove_ne _ hp, if_neg (fun hcon => hp hcon.1)]
    · rw [if_neg hk]
      rw [if_neg (fun hcon => hk hcon.2)]

theorem processMouth_energy (cfg : Config) (births : Cell → Creature → Creature)
    (c : Creature) (st : MouthOut) (m : Cell) :
    (processMouth cfg births c st m).energy
      = st.energy + (if 0 < st.food.get (absPos c.position m) then cfg.energy_gain else 0) := by
  simp only [processMouth]
  by_cases hf : 0 < st.food.get (absPos c.position m)
  · rw [if_pos hf]
    dsimp only
    by_cases hk : 0 < st.keys.get (absPos c.position m)
    · rw [if_pos hk, if_pos hf]
    · rw [if_neg hk, if_pos hf]
  · rw [if_neg hf]
    rw [if_neg hf, add_zero]
    by_cases hk : 0 < st.keys.get (absPos c.position m)
    · rw [if_pos hk]
    · rw [if_neg hk]

theorem processMouth_newborns (cfg : Config) (births : Cell → Creature → Creature)
    (c : Creature) (st : MouthOut) (m : Cell) :
    (processMouth cfg births c st m).newborns
      = (if 0 < st.keys.get (absPos c.position m)
         then [births (absPos c.position m) (spawnBase cfg c (absPos c.position m))]
         else []) ++ st.newborns := by
  simp only [processMouth]
  by_cases hf : 0 < st.food.get (absPos c.position m)
  · rw [if_pos hf]
    dsimp only
    by_cases hk : 0 < st.keys.get (absPos c.position m)
    · rw [if_pos hk, if_pos hk]
      rfl
    · rw [if_neg hk, if_neg hk]
      rfl
  · rw [if_neg hf]
    by_cases hk : 0 < st.keys.get (absPos c.position m)
    · rw [if_pos hk, if_pos hk]
      rfl
    · rw [if_neg hk, if_neg hk]
      rfl

theorem mouthFold_spec (cfg : Config) (births : Cell → Creature → Creature) (c : Creature)
    (morder : List Cell) (st0 : MouthOut)
    (hnd : (morder.map (fun m => absPos c.position m)).Nodup) :
    (∀ p, (mouthFold cfg births c morder st0).food.get p
        = if p ∈ morder.map (fun m => absPos c.position m) ∧ 0 < st0.food.get p
          then st0.food.get p - 1 else st0.food.get p) ∧
    (∀ p, (mouthFold cfg births c morder st0).keys.get p
        = if p ∈ morder.map (fun m => absPos c.position m) ∧ 0 < st0.keys.get p
          then st0.keys.get p - 1 else st0.keys.get p) ∧
    (mouthFold cfg births c morder st0).energy
      = st0.energy + cfg.energy_gain *
          (((morder.map (fun m => absPos c.position m)).countP
            (fun p => decide (0 < st0.food.get p)) : ℕ) : ℤ) ∧
    (mouthFold cfg births c morder st0).newborns
      = ((morder.filter (fun m => decide (0 < st0.keys.get (absPos c.position m)))).map
          (fun m => births (absPos c.position m) (spawnBase cfg c (absPos c.position m)))).reverse
        ++ st0.newborns := by
  induction morder generalizing st0 with
  | nil => simp [mouthFold]
  | cons m t ih =>
    have hnd2 : (absPos c.position m :: t.map (fun m => absPos c.position m)).Nodup := by
      simpa only [List.map_cons] using hnd
    have hmt : absPos c.position m ∉ t.map (fun m => absPos c.position m) :=
      (List.nodup_cons.mp hnd2).1
    have hndt : (t.map (fun m => absPos c.position m)).Nodup :=
      (List.nodup_cons.mp hnd2).2
    have hfold : mouthFold cfg births c (m :: t) st0
        = mouthFold cfg births c t (processMouth cfg births c st0 m) := rfl
    set st1 := processMouth cfg births c st0 m with hst1
    obtain ⟨ihf, ihk, ihe, ihn⟩ := ih st1 hndt
    have hmem : absPos c.position m ∈ (m :: t).map (fun m => absPos c.position m) :=
      List.mem_map_of_mem _ (List.mem_cons_self m t)
    refine ⟨?_, ?_, ?_, ?_⟩
    · intro p
      rw [hfold, ihf p]
      by_cases hp : p = absPos c.position m
      · subst hp
        rw [if_neg (fun hcon => hmt hcon.1)]
        rw [hst1, processMouth_food]
        by_cases hf : 0 < st0.food.get (absPos c.position m)
        · rw [if_pos ⟨rfl, hf⟩, if_pos ⟨hmem, hf⟩]
        · rw [if_neg (fun hcon => hf hcon.2), if_neg (fun hcon => hf hcon.2)]
      · have hget : st1.food.get p = st0.food.get p := by
          rw [hst1, processMouth_food, if_neg (fun hcon => hp hcon.1)]
        rw [hget]
        simp only [List.map_cons, List.mem_cons]
        by_cases hpt : p ∈ t.map (fun m => absPos c.position m)
        · simp [hpt, hp]
        · simp [hpt, hp]
    · intro p
      rw [hfold, ihk p]
      by_cases hp : p = absPos c.position m
      · subst hp
        rw [if_neg (fun hcon => hmt hcon.1)]
        rw [hst1, processMouth_keys]
        by_cases hk : 0 < st0.keys.get (absPos c.position m)
        · rw [if_pos ⟨rfl, hk⟩, if_pos ⟨hmem, hk⟩]
        · rw [if_neg (fun hcon => hk hcon.2), if_neg (fun hcon => hk hcon.2)]
      · have hget : st1.keys.get p = st0.keys.get p := by
          rw [hst1, processMouth_keys, if_neg (fun hcon => hp hcon.1)]
        rw [hget]
        simp only [List.map_cons, List.mem_cons]
        by_cases hpt : p ∈ t.map (fun m => absPos c.position m)
        · simp [hpt, hp]
        · simp [hpt, hp]
    · rw [hfold, ihe]
      have hcongr : (t.map (fun m => absPos c.position m)).countP
            (fun p => decide (0 < st1.food.get p))
          = (t.map (fun m => absPos c.position m)).countP
            (fun p => decide (0 < st0.food.get p)) := by
        apply List.countP_congr
        intro q hq
        have hqm : q ≠ absPos c.position m := fun hcon => hmt (hcon ▸ hq)
        have hget : st1.food.get q = st0.food.get q := by
          rw [hst1, processMouth_food, if_neg (fun hcon => hqm hcon.1)]
        simp [hget]
      rw [hcongr]
      have he1 : st1.energy = st0.energy
          + (if 0 < st0.food.get (absPos c.position m) then cfg.energy_gain else 0) := by
        rw [hst1, processMouth_energy]
      rw [he1]
      simp only [List.map_cons, List.countP_cons]
      by_cases hf : 0 < st0.food.get (absPos c.position m)
      · rw [if_pos hf, if_pos (by simpa using hf)]
        push_cast
        ring
      · rw [if_neg hf, if_neg (by simpa using hf)]
        push_cast
        ring
    · rw [hfold, ihn]
      have hcongr : t.filter (fun m2 => decide (0 < st1.keys.get (absPos c.position m2)))
          = t.filter (fun m2 => decide (0 < st0.keys.get (absPos c.position m2))) := by
        apply List.filter_congr
        intro m2 hm2
        have hqm : absPos c.position m2 ≠ absPos c.position m := by
          intro hcon
          exact hmt (hcon ▸ List.mem_map_of_mem (fun m => absPos c.position m) hm2)
        have hget : st1.keys.get (absPos c.position m2)
            = st0.keys.get (absPos c.position m2) := by
          rw [hst1, processMouth_keys, if_neg (fun hcon => hqm hcon.1)]
        simp [hget]
      rw [hcongr]
      have hn1 : st1.newborns = (if 0 < st0.keys.get (absPos c.position m)
          then [births (absPos c.position m) (spawnBase cfg c (absPos c.position m))]
          else []) ++ st0.newborns := by
        rw [hst1, processMouth_newborns]
      rw [hn1]
      by_cases hk : 0 < st0.keys.get (absPos c.position m)
      · rw [if_pos hk, List.filter_cons_of_pos (by simpa using hk)]
        simp
      · rw [if_neg hk, List.filter_cons_of_neg (by simpa using hk)]
        simp

/-! ## Movement, boundary handling and the death payout -/

theorem moveStep_energy (c : Creature) : (moveStep c).energy = c.energy := rfl

theorem moveStep_age (c : Creature) : (moveStep c).age = c.age := rfl

theorem moveStep_head (c : Creature) : (moveStep c).head = c.head := rfl

theorem moveStep_cells (c : Creature) : (moveStep c).cells = c.cells := rfl

theorem boundaryH_energy (cfg : Config) (c : Creature) :
    (boundaryH cfg c).energy = c.energy := by
  unfold boundaryH
  split_ifs <;> rfl

theorem boundaryH_age (cfg : Config) (c : Creature) : (boundaryH cfg c).age = c.age := by
  unfold boundaryH
  split_ifs <;> rfl

theorem boundaryH_head (cfg : Config) (c : Creature) : (boundaryH cfg c).head = c.head := by
  unfold boundaryH
  split_ifs <;> rfl

theorem boundaryV_energy (cfg : Config) (c : Creature) :
    (boundaryV cfg c).energy = c.energy := by
  unfold boundaryV
  split_ifs <;> rfl

theorem boundaryV_age (cfg : Config) (c : Creature) : (boundaryV cfg c).age = c.age := by
  unfold boundaryV
  split_ifs <;> rfl

theorem boundaryV_head (cfg : Config) (c : Creature) : (boundaryV cfg c).head = c.head := by
  unfold boundaryV
  split_ifs <;> rfl

theorem mem_image_zero {s : Finset Cell} (h0 : (0, 0) ∈ s) {f : Cell → Cell}
    (hf : f (0, 0) = (0, 0)) : ((0, 0) : Cell) ∈ s.image f :=
  hf ▸ Finset.mem_image_of_mem f h0

theorem boundaryH_zero_mem {cfg : Config} {c : Creature} (hh : c.head = (0, 0))
    (h0 : ((0, 0) : Cell) ∈ c.cells) : ((0, 0) : Cell) ∈ (boundaryH cfg c).cells := by
  unfold boundaryH
  split_ifs
  · exact h0
  · rw [mirror_horizontal_cells
      (show ({ c with position := ((0 : ℤ), c.position.2) } : Creature).head = (0, 0) from hh)]
    exact mem_image_zero h0 (by norm_num)
  · exact h0
  · rw [mirror_horizontal_cells
      (show ({ c with position := (cfg.size.1, c.position.2) } : Creature).head = (0, 0) from hh)]
    exact mem_image_zero h0 (by norm_num)
  · exact h0

theorem boundaryV_zero_mem {cfg : Config} {c : Creature} (hh : c.head = (0, 0))
    (h0 : ((0, 0) : Cell) ∈ c.cells) : ((0, 0) : Cell) ∈ (boundaryV cfg c).cells := by
  unfold boundaryV
  split_ifs
  · exact h0
  · rw [mirror_vertical_cells
      (show ({ c with position := (c.position.1, (0 : ℤ)) } : Creature).head = (0, 0) from hh)]
    exact mem_image_zero h0 (by norm_num)
  · exact h0
  · rw [mirror_vertical_cells
      (show ({ c with position := (c.position.1, cfg.size.2) } : Creature).head = (0, 0) from hh)]
    exact mem_image_zero h0 (by norm_num)
  · exact h0

theorem movedCreature_energy (cfg : Config) (births : Cell → Creature → Creature)
    (food keys : MultiSet) (c : Creature) (morder : List Cell) :
    (movedCreature cfg births food keys c morder).energy
      = (midState cfg births food keys c morder).energy := by
  unfold movedCreature
  rw [boundaryV_energy, boundaryH_energy, moveStep_energy]

theorem movedCreature_head (cfg : Config) (births : Cell → Creature → Creature)
    (food keys : MultiSet) (c : Creature) (morder : List Cell) :
    (movedCreature cfg births food keys c morder).head = c.head := by
  unfold movedCreature
  rw [boundaryV_head, boundaryH_head, moveStep_head]
  rfl

theorem movedCreature_zero_mem {cfg : Config} {births : Cell → Creature → Creature}
    {food keys : MultiSet} {c : Creature} {morder : List Cell}
    (hh : c.head = (0, 0)) (h0 : ((0, 0) : Cell) ∈ c.cells) :
    ((0, 0) : Cell) ∈ (movedCreature cfg births food keys c morder).cells := by
  unfold movedCreature
  apply boundaryV_zero_mem
  · rw [boundaryH_head, moveStep_head]
    exact hh
  · apply boundaryH_zero_mem
    · rw [moveStep_head]
      exact hh
    · rw [moveStep_cells]
      exact h0

theorem stepCreature_surv {cfg : Config} {births : Cell → Creature → Creature}
    {food keys : MultiSet} {c : Creature} {morder : List Cell}
    (h : ¬(movedCreature cfg births food keys c morder).energy < 0) :
    stepCreature cfg births food keys c morder =
      ⟨(midState cfg births food keys c morder).food,
       (midState cfg births food keys c morder).keys,
       some (movedCreature cfg births food keys c morder),
       (midState cfg births food keys c morder).newborns⟩ := by
  simp only [stepCreature]
  rw [if_neg h]

theorem stepCreature_death {cfg : Config} {births : Cell → Creature → Creature}
    {food keys : MultiSet} {c : Creature} {morder : List Cell}
    (h : (movedCreature cfg births food keys c morder).energy < 0) :
    stepCreature cfg births food keys c morder =
      ⟨(depositAll (movedCreature cfg births food keys c morder)
          (midState cfg births food keys c morder).food
          (midState cfg births food keys c morder).keys).1,
       (depositAll (movedCreature cfg births food keys c morder)
          (midState cfg births food keys c morder).food
          (midState cfg births food keys c morder).keys).2,
       none,
       (midState cfg births food keys c morder).newborns⟩ := by
  simp only [stepCreature]
  rw [if_pos h]

theorem stepCreature_newborns (cfg : Config) (births : Cell → Creature → Creature)
    (food keys : MultiSet) (c : Creature) (morder : List Cell) :
    (stepCreature cfg births food keys c morder).newborns
      = (midState cfg births food keys c morder).newborns := by
  simp only [stepCreature]
  split_ifs <;> rfl

theorem stepOne_survivors (cfg : Config) (births : Cell → Creature → Creature)
    (food keys : MultiSet) (c : Creature) (morder : List Cell) :
    (stepOne cfg births food keys c morder).2.2
      = (stepCreature cfg births food keys c morder).newborns
        ++ (stepCreature cfg births food keys c morder).selfOut.toList := rfl

theorem depositFold_eq (c : Creature) (l : List Cell) (fk : MultiSet × MultiSet) :
    (l.foldl (fun fk cell =>
        if cell = c.head then (fk.1, fk.2.add (absPos c.position cell))
        else (fk.1.add (absPos c.position cell), fk.2)) fk)
      = (((l.filter (fun cell => decide ¬(cell = c.head))).map
            (fun cell => absPos c.position cell)).foldl MultiSet.add fk.1,
         ((l.filter (fun cell => decide (cell = c.head))).map
            (fun cell => absPos c.position cell)).foldl MultiSet.add fk.2) := by
  induction l generalizing fk with
  | nil => simp
  | cons x t ih =>
    rw [List.foldl_cons]
    by_cases hx : x = c.head
    · rw [if_pos hx, ih,
        List.filter_cons_of_neg (by simp [hx]), List.filter_cons_of_pos (by simp [hx]),
        List.map_cons, List.foldl_cons]
    · rw [if_neg hx, ih,
        List.filter_cons_of_pos (by simp [hx]), List.filter_cons_of_neg (by simp [hx]),
        List.map_cons, List.foldl_cons]

theorem foldl_add_get (l : List Cell) (m : MultiSet) (p : Cell) :
    (l.foldl MultiSet.add m).get p
      = m.get p + (l.countP (fun x => decide (x = p)) : ℤ) := by
  induction l generalizing m with
  | nil => simp
  | cons x t ih =>
    rw [List.foldl_cons, ih, List.countP_cons]
    by_cases hp : p = x
    · subst hp
      rw [MultiSet.get_add_self, if_pos (by simp)]
      push_cast
      ring
    · rw [MultiSet.get_add_ne m hp]
      have hbe : ¬(decide (x = p) = true) := by
        simp only [decide_eq_true_eq]
        exact fun hcon => hp hcon.symm
      rw [if_neg hbe]
      push_cast
      ring

theorem countP_eq_ite_of_nodup {l : List Cell} (hnd : l.Nodup) (p : Cell) :
    l.countP (fun x => decide (x = p)) = if p ∈ l then 1 else 0 := by
  induction l with
  | nil => simp
  | cons x t ih =>
    obtain ⟨hx, ht⟩ := List.nodup_cons.mp hnd
    rw [List.countP_cons, ih ht]
    by_cases hp : p = x
    · subst hp
      rw [if_neg hx, if_pos (by simp), if_pos (List.mem_cons_self p t)]
    · have hbe : ¬(decide (x = p) = true) := by
        simp only [decide_eq_true_eq]
        exact fun hcon => hp hcon.symm
      rw [if_neg hbe, add_zero]
      by_cases hpt : p ∈ t
      · rw [if_pos hpt, if_pos (List.mem_cons_of_mem x hpt)]
      · rw [if_neg hpt,
          if_neg (fun hcon => (List.mem_cons.mp hcon).elim (fun h => hp h) (fun h => hpt h))]

theorem mem_deposit_food_list {c : Creature} {q : Cell} :
    q ∈ ((cellList c.cells).filter (fun cell => decide ¬(cell = c.head))).map
        (fun cell => absPos c.position cell)
      ↔ q ∈ (c.cells.erase c.head).image (fun cell => absPos c.position cell) := by
  simp only [List.mem_map, List.mem_filter, Finset.mem_image, Finset.mem_erase,
    cellList, Finset.mem_sort, decide_eq_true_eq]
  constructor
  · rintro ⟨cell, ⟨hmem, hne⟩, rfl⟩
    exact ⟨cell, ⟨hne, hmem⟩, rfl⟩
  · rintro ⟨cell, ⟨hne, hmem⟩, rfl⟩
    exact ⟨cell, ⟨hmem, hne⟩, rfl⟩

theorem mem_deposit_keys_list {c : Creature} {q : Cell} (hc : c.head ∈ c.cells) :
    q ∈ ((cellList c.cells).filter (fun cell => decide (cell = c.head))).map
        (fun cell => absPos c.position cell)
      ↔ q = absPos c.position c.head := by
  simp only [List.mem_map, List.mem_filter, cellList, Finset.mem_sort, decide_eq_true_eq]
  constructor
  · rintro ⟨cell, ⟨hmem, rfl⟩, rfl⟩
    rfl
  · rintro rfl
    exact ⟨c.head, ⟨hc, rfl⟩, rfl⟩

theorem deposit_food_list_nodup (c : Creature) :
    (((cellList c.cells).filter (fun cell => decide ¬(cell = c.head))).map
        (fun cell => absPos c.position cell)).Nodup :=
  ((Finset.sort_nodup _ _).filter _).map (absPos_inj c.position)

theorem deposit_keys_list_nodup (c : Creature) :
    (((cellList c.cells).filter (fun cell => decide (cell = c.head))).map
        (fun cell => absPos c.position cell)).Nodup :=
  ((Finset.sort_nodup _ _).filter _).map (absPos_inj c.position)

theorem depositAll_food_get (c : Creature) (food keys : MultiSet) (p : Cell) :
    (depositAll c food keys).1.get p
      = food.get p
        + (if p ∈ (c.cells.erase c.head).image (fun cell => absPos c.position cell)
           then 1 else 0) := by
  unfold depositAll
  rw [depositFold_eq]
  dsimp only
  rw [foldl_add_get, countP_eq_ite_of_nodup (deposit_food_list_nodup c)]
  by_cases hq : p ∈ (c.cells.erase c.head).image (fun cell => absPos c.position cell)
  · rw [if_pos (mem_deposit_food_list.mpr hq), if_pos hq]
    norm_num
  · rw [if_neg (fun hcon => hq (mem_deposit_food_list.mp hcon)), if_neg hq]
    norm_num

theorem depositAll_keys_get (c : Creature) (food keys : MultiSet) (hc : c.head ∈ c.cells)
    (p : Cell) :
    (depositAll c food keys).2.get p
      = keys.get p + (if p = absPos c.position c.head then 1 else 0) := by
  unfold depositAll
  rw [depositFold_eq]
  dsimp only
  rw [foldl_add_get, countP_eq_ite_of_nodup (deposit_keys_list_nodup c)]
  by_cases hq : p = absPos c.position c.head
  · rw [if_pos ((mem_deposit_keys_list hc).mpr hq), if_pos hq]
    norm_num
  · rw [if_neg (fun hcon => hq ((mem_deposit_keys_list hc).mp hcon)), if_neg hq]
    norm_num

/-! ## Claim C2: the death check and its payout -/

theorem image_zero_singleton {f : Cell → Cell} (hf : f (0, 0) = (0, 0)) :
    ({((0 : ℤ), (0 : ℤ))} : Finset Cell).image f = {((0 : ℤ), (0 : ℤ))} := by
  rw [Finset.image_singleton, hf]

theorem boundaryH_cells_singleton {cfg : Config} {c : Creature} (hh : c.head = (0, 0))
    (hc : c.cells = {((0 : ℤ), (0 : ℤ))}) :
    (boundaryH cfg c).cells = {((0 : ℤ), (0 : ℤ))} := by
  unfold boundaryH
  split_ifs
  · exact hc
  · rw [mirror_horizontal_cells
      (show ({ c with position := ((0 : ℤ), c.position.2) } : Creature).head = (0, 0) from hh)]
    have hcc : ({ c with position := ((0 : ℤ), c.position.2) } : Creature).cells
        = {((0 : ℤ), (0 : ℤ))} := hc
    rw [hcc]
    exact image_zero_singleton (by norm_num)
  · exact hc
  · rw [mirror_horizontal_cells
      (show ({ c with position := (cfg.size.1, c.position.2) } : Creature).head = (0, 0) from hh)]
    have hcc : ({ c with position := (cfg.size.1, c.position.2) } : Creature).cells
        = {((0 : ℤ), (0 : ℤ))} := hc
    rw [hcc]
    exact image_zero_singleton (by norm_num)
  · exact hc

theorem boundaryV_cells_singleton {cfg : Config} {c : Creature} (hh : c.head = (0, 0))
    (hc : c.cells = {((0 : ℤ), (0 : ℤ))}) :
    (boundaryV cfg c).cells = {((0 : ℤ), (0 : ℤ))} := by
  unfold boundaryV
  split_ifs
  · exact hc
  · rw [mirror_vertical_cells
      (show ({ c with position := (c.position.1, (0 : ℤ)) } : Creature).head = (0, 0) from hh)]
    have hcc : ({ c with position := (c.position.1, (0 : ℤ)) } : Creature).cells
        = {((0 : ℤ), (0 : ℤ))} := hc
    rw [hcc]
    exact image_zero_singleton (by norm_num)
  · exact hc
  · rw [mirror_vertical_cells
      (show ({ c with position := (c.position.1, cfg.size.2) } : Creature).head = (0, 0) from hh)]
    have hcc : ({ c with position := (c.position.1, cfg.size.2) } : Creature).cells
        = {((0 : ℤ), (0 : ℤ))} := hc
    rw [hcc]
    exact image_zero_singleton (by norm_num)
  · exact hc

theorem movedCreature_cells_singleton {cfg : Config} {births : Cell → Creature → Creature}
    {food keys : MultiSet} {c : Creature} {morder : List Cell}
    (hh : c.head = (0, 0)) (hc : c.cells = {((0 : ℤ), (0 : ℤ))}) :
    (movedCreature cfg births food keys c morder).cells = {((0 : ℤ), (0 : ℤ))} := by
  unfold movedCreature
  apply boundaryV_cells_singleton
  · rw [boundaryH_head, moveStep_head]
    exact hh
  · apply boundaryH_cells_singleton
    · rw [moveStep_head]
      exact hh
    · rw [moveStep_cells]
      exact hc

/-- C2 counterexample to the claim as stated: a five-cell organism with
energy 0 loses `energy_loss = 1` at the start of the tick (so its
energy right after the decrement is `-1 < 0`), but its mouth at `(1,0)`
feeds (`energy_gain = 10`), so it survives the death check and is
present in the post-step live set. -/
theorem C2_counterexample :
    ((Creature.init (3, 3) exMouthCells (0, 0) 0).energy - exCfg.energy_loss < 0) ∧
    (Creature.init (3, 3) exMouthCells (0, 0) 0).mouths = {(1, 0)} ∧
    (stepCreature exCfg exBirths (MultiSet.empty.add (4, 3)) MultiSet.empty
      (Creature.init (3, 3) exMouthCells (0, 0) 0) [(1, 0)]).selfOut.isSome = true := by
  decide

/-- C2 (amended): an organism whose energy at the tick's death check
(after the decrement and any feeding gains of the same tick) is
strictly negative is dropped from the survivor set, and exactly one
particle unit is deposited at `position + cell` for each of its cells —
one key unit at the head cell's absolute position and one food unit at
each of the other cells.  In particular (second conjunct) a single-cell
organism entering the tick with `energy = -1` (and a non-negative
configured `energy_loss`) is absent from the post-step live set, `keys`
gains exactly one unit at the organism's final position, and `food` is
unchanged. -/
theorem C2_death_payout :
    (∀ (cfg : Config) (births : Cell → Creature → Creature) (food keys : MultiSet)
        (c : Creature) (morder : List Cell),
      c.head = (0, 0) → ((0, 0) : Cell) ∈ c.cells →
      (midState cfg births food keys c morder).energy < 0 →
      (stepCreature cfg births food keys c morder).selfOut = none ∧
      (∀ p, (stepCreature cfg births food keys c morder).keys.get p
          = (midState cfg births food keys c morder).keys.get p
            + (if p = absPos (movedCreature cfg births food keys c morder).position
                  (movedCreature cfg births food keys c morder).head
               then 1 else 0)) ∧
      (∀ p, (stepCreature cfg births food keys c morder).food.get p
          = (midState cfg births food keys c morder).food.get p
            + (if p ∈ ((movedCreature cfg births food keys c morder).cells.erase
                    (movedCreature cfg births food keys c morder).head).image
                  (fun cell => absPos (movedCreature cfg births food keys c morder).position cell)
               then 1 else 0))) ∧
    (∀ (cfg : Config) (births : Cell → Creature → Creature) (food keys : MultiSet)
        (pos : Cell),
      0 ≤ cfg.energy_loss →
      (stepCreature cfg births food keys (Creature.init pos {(0, 0)} (0, 0) (-1)) []).selfOut
          = none ∧
      (stepOne cfg births food keys (Creature.init pos {(0, 0)} (0, 0) (-1)) []).2.2 = [] ∧
      (∀ p, (stepCreature cfg births food keys
            (Creature.init pos {(0, 0)} (0, 0) (-1)) []).keys.get p
          = keys.get p
            + (if p = (movedCreature cfg births food keys
                  (Creature.init pos {(0, 0)} (0, 0) (-1)) []).position then 1 else 0)) ∧
      (∀ p, (stepCreature cfg births food keys
            (Creature.init pos {(0, 0)} (0, 0) (-1)) []).food.get p
          = food.get p)) := by
  have hgen : ∀ (cfg : Config) (births : Cell → Creature → Creature) (food keys : MultiSet)
      (c : Creature) (morder : List Cell),
      c.head = (0, 0) → ((0, 0) : Cell) ∈ c.cells →
      (midState cfg births food keys c morder).energy < 0 →
      (stepCreature cfg births food keys c morder).selfOut = none ∧
      (∀ p, (stepCreature cfg births food keys c morder).keys.get p
          = (midState cfg births food keys c morder).keys.get p
            + (if p = absPos (movedCreature cfg births food keys c morder).position
                  (movedCreature cfg births food keys c morder).head
               then 1 else 0)) ∧
      (∀ p, (stepCreature cfg births food keys c morder).food.get p
          = (midState cfg births food keys c morder).food.get p
            + (if p ∈ ((movedCreature cfg births food keys c morder).cells.erase
                    (movedCreature cfg births food keys c morder).head).image
                  (fun cell => absPos (movedCreature cfg births food keys c morder).position cell)
               then 1 else 0)) := by
    intro cfg births food keys c morder hh h0 hdead
    have hd2 : (movedCreature cfg births food keys c morder).energy < 0 := by
      rw [movedCreature_energy]
      exact hdead
    have hstep := stepCreature_death hd2
    have hhead2 : (movedCreature cfg births food keys c morder).head
        ∈ (movedCreature cfg births food keys c morder).cells := by
      rw [movedCreature_head, hh]
      exact movedCreature_zero_mem hh h0
    refine ⟨by rw [hstep], ?_, ?_⟩
    · intro p
      rw [hstep]
      exact depositAll_keys_get _ _ _ hhead2 p
    · intro p
      rw [hstep]
      exact depositAll_food_get _ _ _ p
  refine ⟨hgen, ?_⟩
  intro cfg births food keys pos hloss
  have hh : (Creature.init pos {(0, 0)} (0, 0) (-1)).head = (0, 0) := rfl
  have hcells : (Creature.init pos {(0, 0)} (0, 0) (-1)).cells = {((0 : ℤ), (0 : ℤ))} :=
    analyze_cells_of_head₀ rfl
  have h0 : ((0, 0) : Cell) ∈ (Creature.init pos {(0, 0)} (0, 0) (-1)).cells := by
    rw [hcells]
    exact Finset.mem_singleton_self _
  have hmid : midState cfg births food keys (Creature.init pos {(0, 0)} (0, 0) (-1)) []
      = ⟨food, keys, (Creature.init pos {(0, 0)} (0, 0) (-1)).energy - cfg.energy_loss, []⟩ :=
    rfl
  have hE : (Creature.init pos {(0, 0)} (0, 0) (-1)).energy = -1 := rfl
  have hdead : (midState cfg births food keys
      (Creature.init pos {(0, 0)} (0, 0) (-1)) []).energy < 0 := by
    rw [hmid]
    show (Creature.init pos {(0, 0)} (0, 0) (-1)).energy - cfg.energy_loss < 0
    rw [hE]
    omega
  obtain ⟨h1, h2, h3⟩ := hgen cfg births food keys
    (Creature.init pos {(0, 0)} (0, 0) (-1)) [] hh h0 hdead
  have hnb : (stepCreature cfg births food keys
      (Creature.init pos {(0, 0)} (0, 0) (-1)) []).newborns = [] := by
    rw [stepCreature_newborns, hmid]
  refine ⟨h1, ?_, ?_, ?_⟩
  · rw [stepOne_survivors, hnb, h1]
    rfl
  · intro p
    have h4 := h2 p
    rw [hmid] at h4
    rw [movedCreature_head, hh, absPos_zero] at h4
    exact h4
  · intro p
    have h4 := h3 p
    rw [hmid] at h4
    have hzc : ((movedCreature cfg births food keys
          (Creature.init pos {(0, 0)} (0, 0) (-1)) []).cells.erase
        (movedCreature cfg births food keys
          (Creature.init pos {(0, 0)} (0, 0) (-1)) []).head) = (∅ : Finset Cell) := by
      rw [movedCreature_cells_singleton hh hcells, movedCreature_head, hh,
        Finset.erase_singleton]
    rw [hzc, Finset.image_empty] at h4
    simpa using h4

/-- Witness for C2 at a concrete single-cell dying organism. -/
theorem C2_witness :
    (stepCreature exCfg exBirths MultiSet.empty MultiSet.empty
        (Creature.init (3, 4) {(0, 0)} (0, 0) (-1)) []).selfOut = none ∧
    (stepOne exCfg exBirths MultiSet.empty MultiSet.empty
        (Creature.init (3, 4) {(0, 0)} (0, 0) (-1)) []).2.2 = [] ∧
    (stepCreature exCfg exBirths MultiSet.empty MultiSet.empty
        (Creature.init (3, 4) {(0, 0)} (0, 0) (-1)) []).keys.get (3, 4) = 1 ∧
    (stepCreature exCfg exBirths MultiSet.empty MultiSet.empty
        (Creature.init (3, 4) {(0, 0)} (0, 0) (-1)) []).food.get (3, 4) = 0 := by
  obtain ⟨h1, h2, h3, h4⟩ := C2_death_payout.2 exCfg exBirths MultiSet.empty MultiSet.empty
    (3, 4) (by norm_num [exCfg])
  refine ⟨h1, h2, ?_, ?_⟩
  · rw [h3 (3, 4)]
    decide
  · rw [h4 (3, 4)]
    decide

/-! ## Claim C3: feeding -/

theorem init_fields (position : Cell) (cells : Finset Cell) (head : Cell) (energy : ℤ) :
    (Creature.init position cells head energy).position = position ∧
    (Creature.init position cells head energy).head = head ∧
    (Creature.init position cells head energy).energy = energy ∧
    (Creature.init position cells head energy).age = 0 :=
  ⟨rfl, rfl, rfl, rfl⟩

theorem init_cells_of_head₀ (position : Cell) {cells : Finset Cell} {head : Cell}
    (energy : ℤ) (hh : head = (0, 0)) :
    (Creature.init position cells head energy).cells = cells :=
  analyze_cells_of_head₀ hh

/-- C3: for an organism processed by `step()` whose only mouth on a
food-bearing position sits at absolute position `P`, with exactly one
food unit and no key at `P`, if the organism survives the tick then the
food count at `P` drops to 0 and the organism's energy has changed by
exactly `energy_gain - energy_loss`. -/
theorem C3_feeding (cfg : Config) (births : Cell → Creature → Creature)
    (food keys : MultiSet) (c : Creature) (morder : List Cell) (P : Cell)
    (hmo : ∀ m, m ∈ morder ↔ m ∈ c.mouths) (hnd : morder.Nodup)
    (hmouthP : ∃ m ∈ c.mouths, absPos c.position m = P)
    (honly : ∀ m ∈ c.mouths, 0 < food.get (absPos c.position m) → absPos c.position m = P)
    (hfood : food.get P = 1)
    (hkey : keys.get P = 0)
    (hsurv : (stepCreature cfg births food keys c morder).selfOut.isSome = true) :
    (stepCreature cfg births food keys c morder).food.get P = 0 ∧
    (∀ c', (stepCreature cfg births food keys c morder).selfOut = some c' →
      c'.energy = c.energy + (cfg.energy_gain - cfg.energy_loss)) := by
  have hndm : (morder.map (fun m => absPos (tickStart cfg c).position m)).Nodup :=
    hnd.map (absPos_inj (tickStart cfg c).position)
  obtain ⟨hsf, hsk, hse, hsn⟩ := mouthFold_spec cfg births (tickStart cfg c) morder
    ⟨food, keys, (tickStart cfg c).energy, []⟩ hndm
  simp only [tickStart_position] at hsf hse
  obtain ⟨m0, hm0, hm0P⟩ := hmouthP
  have hm0ord : m0 ∈ morder := (hmo m0).mpr hm0
  have hPmem : P ∈ morder.map (fun m => absPos c.position m) :=
    hm0P ▸ List.mem_map_of_mem _ hm0ord
  have hfoodP : (midState cfg births food keys c morder).food.get P = 0 := by
    show (mouthFold cfg births (tickStart cfg c) morder
      ⟨food, keys, (tickStart cfg c).energy, []⟩).food.get P = 0
    rw [hsf P]
    rw [if_pos ⟨hPmem, by omega⟩]
    omega
  have hcount : (morder.map (fun m => absPos c.position m)).countP
      (fun p => decide (0 < food.get p)) = 1 := by
    have hcongr : (morder.map (fun m => absPos c.position m)).countP
        (fun p => decide (0 < food.get p))
        = (morder.map (fun m => absPos c.position m)).countP (fun p => decide (p = P)) := by
      apply List.countP_congr
      intro q hq
      obtain ⟨m, hm, rfl⟩ := List.mem_map.mp hq
      simp only [decide_eq_true_eq]
      constructor
      · intro hlt
        exact honly m ((hmo m).mp hm) hlt
      · intro hqP
        rw [hqP, hfood]
        norm_num
    have hndm2 : (morder.map (fun m => absPos c.position m)).Nodup :=
      hnd.map (absPos_inj c.position)
    rw [hcongr, countP_eq_ite_of_nodup hndm2 P, if_pos hPmem]
  have hE : (midState cfg births food keys c morder).energy
      = c.energy + (cfg.energy_gain - cfg.energy_loss) := by
    show (mouthFold cfg births (tickStart cfg c) morder
      ⟨food, keys, (tickStart cfg c).energy, []⟩).energy
      = c.energy + (cfg.energy_gain - cfg.energy_loss)
    rw [hse]
    rw [hcount, tickStart_energy]
    push_cast
    ring
  by_cases hdead : (movedCreature cfg births food keys c morder).energy < 0
  · rw [stepCreature_death hdead] at hsurv
    simp at hsurv
  · have hstep := stepCreature_surv hdead
    constructor
    · rw [hstep]
      exact hfoodP
    · intro c' hc'
      rw [hstep] at hc'
      have hc'2 : movedCreature cfg births food keys c morder = c' := Option.some.inj hc'
      rw [← hc'2, movedCreature_energy, hE]

/-- Witness for C3: the five-cell creature at the origin with its mouth
`(1, 0)` on one food unit, with default gains. -/
theorem C3_witness :
    (stepCreature exCfg exBirths (MultiSet.empty.add (1, 0)) MultiSet.empty
        exParent [(1, 0)]).food.get (1, 0) = 0 ∧
    (∀ c', (stepCreature exCfg exBirths (MultiSet.empty.add (1, 0)) MultiSet.empty
        exParent [(1, 0)]).selfOut = some c' →
      c'.energy = exParent.energy + (exCfg.energy_gain - exCfg.energy_loss)) := by
  have h := C3_feeding exCfg exBirths (MultiSet.empty.add (1, 0)) MultiSet.empty
    exParent [(1, 0)] (1, 0)
    (by
      intro m
      have hm : exParent.mouths = {((1 : ℤ), (0 : ℤ))} := by decide
      rw [hm]
      simp)
    (by simp)
    ⟨(1, 0), by decide, by decide⟩
    (by decide) (by decide) (by decide) (by decide)
  exact h

/-! ## Claim C5: reproduction -/

/-- C5: every key present at a mouth's absolute position during the
organism's processing spawns exactly one newborn — handed to the random
mutation/rotation post-processing `births` (assumed to preserve
position, energy and age, as proved in the frame analysis) — whose
construction starts from the parent's cells and head at the mouth's
absolute position with the configured `offspring_energy` and age 0.
Every newborn lands in the post-step survivor set with age 0 and energy
`offspring_energy` (no energy loss, movement, boundary handling or
death check is applied to it this tick), with no constraint on the sign
of `offspring_energy`. -/
theorem C5_reproduction (cfg : Config) (births : Cell → Creature → Creature)
    (food keys : MultiSet) (c : Creature) (morder : List Cell)
    (hnd : morder.Nodup)
    (hmo : ∀ m, m ∈ morder ↔ m ∈ c.mouths)
    (hfr : ∀ mp base, (births mp base).energy = base.energy ∧
      (births mp base).age = base.age ∧ (births mp base).position = base.position)
    (hh : c.head = (0, 0)) :
    (stepCreature cfg births food keys c morder).newborns
      = ((morder.filter (fun m => decide (0 < keys.get (absPos c.position m)))).map
          (fun m => births (absPos c.position m)
            (spawnBase cfg (tickStart cfg c) (absPos c.position m)))).reverse ∧
    (∀ mp, (spawnBase cfg (tickStart cfg c) mp).position = mp ∧
      (spawnBase cfg (tickStart cfg c) mp).cells = c.cells ∧
      (spawnBase cfg (tickStart cfg c) mp).head = c.head ∧
      (spawnBase cfg (tickStart cfg c) mp).energy = cfg.offspring_energy ∧
      (spawnBase cfg (tickStart cfg c) mp).age = 0) ∧
    (∀ n ∈ (stepCreature cfg births food keys c morder).newborns,
      n.energy = cfg.offspring_energy ∧ n.age = 0 ∧
      ∃ m ∈ morder, 0 < keys.get (absPos c.position m) ∧ n.position = absPos c.position m) ∧
    (∀ n ∈ (stepCreature cfg births food keys c morder).newborns,
      n ∈ (stepOne cfg births food keys c morder).2.2) := by
  have hndm : (morder.map (fun m => absPos (tickStart cfg c).position m)).Nodup :=
    hnd.map (absPos_inj (tickStart cfg c).position)
  obtain ⟨-, -, -, hsn⟩ := mouthFold_spec cfg births (tickStart cfg c) morder
    ⟨food, keys, (tickStart cfg c).energy, []⟩ hndm
  simp only [tickStart_position] at hsn
  have hnb : (stepCreature cfg births food keys c morder).newborns
      = ((morder.filter (fun m => decide (0 < keys.get (absPos c.position m)))).map
          (fun m => births (absPos c.position m)
            (spawnBase cfg (tickStart cfg c) (absPos c.position m)))).reverse := by
    rw [stepCreature_newborns]
    show (mouthFold cfg births (tickStart cfg c) morder
      ⟨food, keys, (tickStart cfg c).energy, []⟩).newborns = _
    rw [hsn]
    simp
  have hbase : ∀ mp, (spawnBase cfg (tickStart cfg c) mp).position = mp ∧
      (spawnBase cfg (tickStart cfg c) mp).cells = c.cells ∧
      (spawnBase cfg (tickStart cfg c) mp).head = c.head ∧
      (spawnBase cfg (tickStart cfg c) mp).energy = cfg.offspring_energy ∧
      (spawnBase cfg (tickStart cfg c) mp).age = 0 := by
    intro mp
    refine ⟨rfl, ?_, rfl, rfl, rfl⟩
    show (Creature.init mp (tickStart cfg c).cells (tickStart cfg c).head
      cfg.offspring_energy).cells = c.cells
    rw [init_cells_of_head₀ _ _ (show (tickStart cfg c).head = (0, 0) from hh)]
    rfl
  refine ⟨hnb, hbase, ?_, ?_⟩
  · intro n hn
    rw [hnb] at hn
    rw [List.mem_reverse] at hn
    obtain ⟨m, hm, rfl⟩ := List.mem_map.mp hn
    obtain ⟨hmord, hmkey⟩ := List.mem_filter.mp hm
    rw [decide_eq_true_eq] at hmkey
    obtain ⟨hfe, hfa, hfp⟩ := hfr (absPos c.position m)
      (spawnBase cfg (tickStart cfg c) (absPos c.position m))
    obtain ⟨hbp, _, _, hbe, hba⟩ := hbase (absPos c.position m)
    exact ⟨hfe.trans hbe, hfa.trans hba, m, hmord, hmkey, hfp.trans hbp⟩
  · intro n hn
    rw [stepOne_survivors]
    exact List.mem_append_left _ hn

/-- Witness for C5: the five-cell parent on a key at `(1, 0)`, with a
negative `offspring_energy` and a rotating `births` post-processing. -/
theorem C5_witness :
    (stepCreature exCfgNeg exBirthsRot MultiSet.empty exKeys exParent [(1, 0)]).newborns
      = [exBirthsRot (absPos exParent.position (1, 0))
          (spawnBase exCfgNeg (tickStart exCfgNeg exParent) (absPos exParent.position (1, 0)))] ∧
    (spawnBase exCfgNeg (tickStart exCfgNeg exParent)
        (absPos exParent.position (1, 0))).energy = -3 ∧
    (spawnBase exCfgNeg (tickStart exCfgNeg exParent)
        (absPos exParent.position (1, 0))).age = 0 := by
  have h := C5_reproduction exCfgNeg exBirthsRot MultiSet.empty exKeys exParent [(1, 0)]
    (by simp)
    (by
      intro m
      have hm : exParent.mouths = {((1 : ℤ), (0 : ℤ))} := by decide
      rw [hm]
      simp)
    (fun mp base => ⟨rfl, rfl, rfl⟩) (by decide)
  refine ⟨?_, ?_, ?_⟩
  · rw [h.1]
    decide
  · exact (h.2.1 (absPos exParent.position (1, 0))).2.2.2.1
  · exact (h.2.1 (absPos exParent.position (1, 0))).2.2.2.2

end Biotopia
